import Mathlib

/-!
# Verification of the crush runtime core

A shallow embedding, in Lean 4, of the core runtime components of the
`crush` repository, together with proofs of the contract properties its
specification states about them:

* the background shell manager (`internal/shell`, `src/unnamed/part_008`):
  `Start` / `Get` / `GetOutput` / `Kill` / `List`;
* the hook executor (`src/internal/hooks/hooks.go`,
  `src/internal/config/hooks.go`): matcher evaluation, per-hook timeouts
  and fail-fast execution;
* the MCP tool-provider lifecycle orchestrator
  (`src/internal/llm/agent/mcp-tools.go`): the state registry, the
  error-state clearing invariant, and panic isolation at startup;
* the instance registry of the control-plane server
  (`src/internal/server/proto.go`): idempotent instance creation keyed by
  the hex SHA-256 of the `filepath.Clean`-ed path;
* the client's event-stream decode loop (`src/internal/client/proto.go`,
  `src/internal/pubsub/events.go`).

Go machine integers are modelled as `Nat`/`Int` with explicit `% 2 ^ w`
where overflow matters; Go `error` values are modelled as
`Option String` (`none` = nil error); external effects (running a command,
JSON decoding, connecting to a provider) are modelled as explicit oracle
arguments so that every definition stays executable.
-/

set_option autoImplicit false

namespace Crush

/-! ## Association-list finite maps

Go `map[string]V` registries are modelled as association lists with
in-place update (`setA`), deletion (`delA`) and lookup (`lookupA`).
-/

/-- Lookup in an association list, first binding wins (Go map lookup). -/
def lookupA {α : Type} (l : List (String × α)) (k : String) : Option α :=
  match l with
  | [] => none
  | (k', v) :: rest => if k' = k then some v else lookupA rest k

/-- In-place update of an association list: replaces the first binding of
`k` if present, otherwise appends a new binding (Go map assignment). -/
def setA {α : Type} (l : List (String × α)) (k : String) (v : α) : List (String × α) :=
  match l with
  | [] => [(k, v)]
  | (k', v') :: rest => if k' = k then (k, v) :: rest else (k', v') :: setA rest k v

/-- Deletion from an association list (Go `delete(m, k)`). -/
def delA {α : Type} (l : List (String × α)) (k : String) : List (String × α) :=
  match l with
  | [] => []
  | (k', v') :: rest => if k' = k then delA rest k else (k', v') :: delA rest k

/-! ## Go string primitives

Executable embeddings (over the character list of a `String`) of the Go
standard-library string functions the sources call; Lean's built-in
`String.trim`/`String.splitOn` are not kernel-reducible, so the Go
behaviour is reimplemented structurally here. -/

/-- Go `unicode.IsSpace` restricted to the ASCII whitespace characters. -/
def isSpaceChar (c : Char) : Bool :=
  c = ' ' || c = '\t' || c = '\n' || c = '\x0b' || c = '\x0c' || c = '\r'

/-- `strings.TrimSpace`. -/
def trimSpace (s : String) : String :=
  ⟨((s.data.dropWhile isSpaceChar).reverse.dropWhile isSpaceChar).reverse⟩

/-- `strings.Contains(s, "|")` for the one-character separator `"|"`. -/
def containsPipe (s : String) : Bool :=
  s.data.any (· = '|')

/-- Splitting a character list at each `'|'`; the empty list yields one
empty field, like Go `strings.Split`. -/
def splitPipeAux : List Char → List (List Char)
  | [] => [[]]
  | c :: rest =>
    if c = '|' then [] :: splitPipeAux rest
    else
      match splitPipeAux rest with
      | [] => [[c]]
      | grp :: grps => (c :: grp) :: grps

/-- `strings.SplitSeq(s, "|")` / `strings.Split(s, "|")`. -/
def splitPipe (s : String) : List String :=
  (splitPipeAux s.data).map fun l => ⟨l⟩

/-! ## Background shell manager

Embedding of `src/unnamed/part_008` (package `shell`).  A
`BackgroundShell` is the record the Go code keeps per spawned command:
accumulated stdout/stderr buffers, a completion flag (the closed-ness of
the `done` channel), the exit error and the working directory.  The
manager state carries the registry map `shells` (represented by its list
of keys, the shell objects living in `heap`, which stands for the Go
heap: a `BackgroundShell` pointer stays valid after it is removed from
the registry map).

The background runner goroutine launched by `Start` is modelled as a
separate `runnerFinish` transition: it fires at most once per shell
(while `done = false`), writes the captured output and exit error into
the buffers, and sets `done` — exactly the body of the goroutine in the
source, where the buffer writes happen before `close(bgShell.done)`.
-/

/-- One background shell (`BackgroundShell` in the source).  `done` is
true iff the `done` channel has been closed by the runner. -/
structure BackgroundShell where
  id : String
  stdout : String
  stderr : String
  done : Bool
  exitErr : Option String
  workingDir : String
deriving DecidableEq, Repr

/-- The manager's state: the key set of the `shells` map plus the heap of
all shell objects ever allocated (indexed by their collision-resistant
generated id). -/
structure BackgroundShellManager where
  shells : List String
  heap : String → Option BackgroundShell

/-- The manager as created by `GetBackgroundShellManager`: empty registry,
nothing allocated. -/
def BackgroundShellManager.emptyManager : BackgroundShellManager :=
  { shells := [], heap := fun _ => none }

/-- `Start` (source lines 48–86): allocates a fresh `BackgroundShell` with
empty buffers and `done = false`, and registers it under the generated
`id`.  The command's execution is the separate `runnerFinish` transition. -/
def BackgroundShellManager.Start (m : BackgroundShellManager) (id workingDir : String) :
    BackgroundShellManager :=
  { shells := id :: m.shells,
    heap := fun k =>
      if k = id then
        some { id := id, stdout := "", stderr := "", done := false,
               exitErr := none, workingDir := workingDir }
      else m.heap k }

/-- The body of the background runner goroutine (source lines 73–83):
after `shell.Exec` returns `(out, errOut, exitErr)`, the runner appends
the captured output to the (empty) buffers, records the exit error, and
closes `done`. -/
def BackgroundShellManager.runnerFinish (m : BackgroundShellManager)
    (id out errOut : String) (exitErr : Option String) : BackgroundShellManager :=
  { m with
    heap := fun k =>
      if k = id then
        (m.heap k).map fun bs =>
          { bs with stdout := bs.stdout ++ out, stderr := bs.stderr ++ errOut,
                    exitErr := exitErr, done := true }
      else m.heap k }

/-- `Get` (source lines 89–94): map lookup. -/
def BackgroundShellManager.Get (m : BackgroundShellManager) (id : String) :
    Option BackgroundShell :=
  if id ∈ m.shells then m.heap id else none

/-- `List` (source lines 113–122): the ids currently registered. -/
def BackgroundShellManager.listIDs (m : BackgroundShellManager) : List String :=
  m.shells

/-- `Kill` (source lines 97–110): an unregistered id is an error and the
state is untouched; otherwise the entry is deleted from the map, the
context is cancelled and `Kill` blocks on `<-shell.done` — so by the time
it returns the runner has recorded final output.  The output the runner
captures on cancellation is not determined by the manager, so it is an
oracle argument `(finalOut, finalErrOut, finalExitErr)`, used only when
the runner had not yet finished. -/
def BackgroundShellManager.Kill (m : BackgroundShellManager) (id : String)
    (finalOut finalErrOut : String) (finalExitErr : Option String) :
    BackgroundShellManager × Option String :=
  if id ∈ m.shells then
    let m' : BackgroundShellManager := { m with shells := m.shells.erase id }
    let m'' : BackgroundShellManager :=
      match m'.heap id with
      | some bs =>
          if bs.done then m'
          else m'.runnerFinish id finalOut finalErrOut finalExitErr
      | none => m'
    (m'', none)
  else
    (m, some ("background shell not found: " ++ id))

/-- `GetOutput` (source lines 125–135): a non-blocking snapshot; the
`select` on the `done` channel reports `done = true` (and the exit error)
only once the runner has closed it. -/
def BackgroundShell.GetOutput (bs : BackgroundShell) :
    String × String × Bool × Option String :=
  if bs.done then (bs.stdout, bs.stderr, true, bs.exitErr)
  else (bs.stdout, bs.stderr, false, none)

/-- `IsDone` (source lines 138–145). -/
def BackgroundShell.IsDone (bs : BackgroundShell) : Bool :=
  bs.done

/-- `GetWorkingDir` (source lines 153–157). -/
def BackgroundShell.GetWorkingDir (bs : BackgroundShell) : String :=
  bs.workingDir

/-- The events that mutate the manager: `Start` with a fresh id
(the generated ids are collision-resistant), the runner goroutine
finishing a not-yet-finished shell, and `Kill` with arbitrary
finalization oracle. -/
inductive ShellStep : BackgroundShellManager → BackgroundShellManager → Prop
  | start (m : BackgroundShellManager) (id workingDir : String)
      (hfresh : m.heap id = none) :
      ShellStep m (m.Start id workingDir)
  | finish (m : BackgroundShellManager) (id out errOut : String)
      (exitErr : Option String) (bs : BackgroundShell)
      (hbs : m.heap id = some bs) (hrun : bs.done = false) :
      ShellStep m (m.runnerFinish id out errOut exitErr)
  | kill (m : BackgroundShellManager) (id finalOut finalErrOut : String)
      (finalExitErr : Option String) :
      ShellStep m (m.Kill id finalOut finalErrOut finalExitErr).1

/-- A manager state reachable from the initial (empty) manager. -/
def ShellReachable (m : BackgroundShellManager) : Prop :=
  Relation.ReflTransGen ShellStep BackgroundShellManager.emptyManager m

/-- The manager's data invariant: every registered id is allocated, the
registry has no duplicate keys (it is a map), and a shell whose runner
has not finished still has empty buffers and no recorded exit error. -/
def ShellInv (m : BackgroundShellManager) : Prop :=
  (∀ id, id ∈ m.shells → ∃ bs, m.heap id = some bs) ∧
  m.shells.Nodup ∧
  (∀ id bs, m.heap id = some bs →
    bs.done = false → bs.stdout = "" ∧ bs.stderr = "" ∧ bs.exitErr = none)

/-! ## Hook executor

Embedding of `src/internal/hooks/hooks.go` (the version whose
`matcherApplies` delegates to `matchesToolName`, lines 156–341 of the
provided file) and of the hook configuration types from
`src/internal/config/hooks.go`.  Running a shell command is external to
this core, so the outcome of `shell.ExecWithStdin` is an oracle
(`HookRunEnv`); a `nil` Go context error is `none`.  The context's
timestamp and the free-form `tool_input` / `permission_params` payloads
carry no control flow and are omitted from the embedded `HookContext`.
-/

/-- `config.PreToolUse`. -/
def PreToolUse : String := "pre_tool_use"

/-- `config.PostToolUse`. -/
def PostToolUse : String := "post_tool_use"

/-- `config.UserPromptSubmit`. -/
def UserPromptSubmit : String := "user_prompt_submit"

/-- `config.Stop`. -/
def StopHookEvent : String := "stop"

/-- `config.SubagentStop`. -/
def SubagentStop : String := "subagent_stop"

/-- `config.PreCompact`. -/
def PreCompact : String := "pre_compact"

/-- `config.PermissionRequested`. -/
def PermissionRequested : String := "permission_requested"

/-- `config.Hook` (src/internal/config/hooks.go lines 24–33).  `timeout`
is in seconds; its jsonschema declares default 30, minimum 1, maximum
300, and HOOKS.md documents "default: 30, max: 300". -/
structure Hook where
  type : String
  command : String
  timeout : Option Int
deriving DecidableEq, Repr

/-- `config.HookMatcher` (src/internal/config/hooks.go lines 36–43). -/
structure HookMatcher where
  matcher : String
  hooks : List Hook
deriving DecidableEq, Repr

/-- `config.HookConfig`: a map from event type to matchers; a nil Go map
behaves as the empty list. -/
abbrev HookConfig := List (String × List HookMatcher)

/-- The control-flow-relevant fields of `hooks.HookContext`. -/
structure HookContext where
  eventType : String
  sessionID : String
  toolName : String
  toolResult : String
  toolError : Bool
  userPrompt : String
  workingDir : String
  messageID : String
  provider : String
  model : String
deriving DecidableEq, Repr

/-- `DefaultHookTimeout` (hooks.go line 170): 30 seconds. -/
def DefaultHookTimeout : Int := 30

/-- The timeout `executeHook` computes (hooks.go lines 299–302): the
default when no timeout is configured, otherwise the configured number of
seconds.  Note that no upper bound is applied. -/
def effectiveTimeoutSeconds (hook : Hook) : Int :=
  match hook.timeout with
  | none => DefaultHookTimeout
  | some t => t

/-- `matchesToolName` (hooks.go lines 267–291): exact match, else an
alternation branch that requires the pattern to contain a pipe and
compares each pipe-separated alternative after trimming whitespace. -/
def matchesToolName (pattern toolName : String) : Bool :=
  if pattern = "" || pattern = "*" then true
  else if pattern = toolName then true
  else if !containsPipe pattern then false
  else (splitPipe pattern).any fun tool => trimSpace tool = toolName

/-- `Executor.matcherApplies` (hooks.go lines 253–264). -/
def matcherApplies (matcher : HookMatcher) (ctx : HookContext) : Bool :=
  if matcher.matcher = "" || matcher.matcher = "*" then true
  else if ctx.eventType = PreToolUse || ctx.eventType = PostToolUse then
    matchesToolName matcher.matcher ctx.toolName
  else matcher.matcher = "" || matcher.matcher = "*"

/-- The matcher predicate in the words of the specification's claim:
empty/`*` always applies; for pre/post-tool-use events the matcher
applies iff the pattern equals the tool name exactly or the pattern split
on `|` contains an alternative that equals the tool name after trimming
surrounding whitespace; non-tool events only match empty/`*`. -/
def specMatcherApplies (pattern eventType toolName : String) : Bool :=
  if pattern = "" || pattern = "*" then true
  else if eventType = PreToolUse || eventType = PostToolUse then
    pattern = toolName || (splitPipe pattern).any (fun alt => trimSpace alt = toolName)
  else false

/-- The matching rule the code actually implements: as
`specMatcherApplies`, except that the trimmed-alternation branch applies
only when the pattern contains at least one `|`. -/
def matcherAppliesAmended (pattern eventType toolName : String) : Bool :=
  if pattern = "" || pattern = "*" then true
  else if eventType = PreToolUse || eventType = PostToolUse then
    pattern = toolName ||
      (containsPipe pattern && (splitPipe pattern).any (fun alt => trimSpace alt = toolName))
  else false

/-- Oracle for the external shell: given the hook, the invocation context
and the timeout in seconds, `run` returns `none` on success or
`some tail` for a non-zero exit or timeout, where `tail` is the formatted
text Go appends after `"hook command failed: "` (the wrapped error plus
captured stdout/stderr). -/
structure HookRunEnv where
  run : Hook → HookContext → Int → Option String

/-- `Executor.executeHook` (hooks.go lines 294–341): rejects non-command
hook types without running anything; otherwise runs the command under
`effectiveTimeoutSeconds` and wraps a failure.  The second component
lists the commands the shell actually ran. -/
def executeHook (env : HookRunEnv) (hook : Hook) (hookCtx : HookContext) :
    Option String × List String :=
  if hook.type ≠ "command" then
    (some ("unsupported hook type: " ++ hook.type), [])
  else
    match env.run hook hookCtx (effectiveTimeoutSeconds hook) with
    | some e => (some ("hook command failed: " ++ e), [hook.command])
    | none => (none, [hook.command])

/-- The inner loop of `Execute` over one matcher's hooks (hooks.go lines
237–246): stop at the first hook error. -/
def runHooks (env : HookRunEnv) (hookCtx : HookContext) :
    List Hook → Option String × List String
  | [] => (none, [])
  | hook :: rest =>
    match executeHook env hook hookCtx with
    | (some e, ran) => (some e, ran)
    | (none, ran) =>
      let r := runHooks env hookCtx rest
      (r.1, ran ++ r.2)

/-- The outer loop of `Execute` over matchers (hooks.go lines 228–247),
with the `ctx.Err()` cancellation check before each matcher. -/
def runMatchers (env : HookRunEnv) (ctxErr : Option String)
    (hookCtx : HookContext) : List HookMatcher → Option String × List String
  | [] => (none, [])
  | matcher :: rest =>
    match ctxErr with
    | some e => (some e, [])
    | none =>
      if matcherApplies matcher hookCtx then
        match runHooks env hookCtx matcher.hooks with
        | (some e, ran) => (some e, ran)
        | (none, ran) =>
          let r := runMatchers env ctxErr hookCtx rest
          (r.1, ran ++ r.2)
      else runMatchers env ctxErr hookCtx rest

/-- `Executor.Execute` (hooks.go lines 215–250): stamp the executor's
working directory into the context, look up the matchers configured for
the event type, and process them in order. -/
def Execute (env : HookRunEnv) (config : HookConfig) (workingDir : String)
    (ctxErr : Option String) (hookCtx : HookContext) :
    Option String × List String :=
  let hctx := { hookCtx with workingDir := workingDir }
  match lookupA config hctx.eventType with
  | none => (none, [])
  | some matchers =>
    if matchers.length = 0 then (none, [])
    else runMatchers env ctxErr hctx matchers

/-- The hooks a call to `Execute` considers, in order: the concatenated
hook lists of the applying matchers for the event. -/
def applyingHooks (config : HookConfig) (hookCtx : HookContext) : List Hook :=
  match lookupA config hookCtx.eventType with
  | none => []
  | some matchers =>
    (matchers.filter fun matcher => matcherApplies matcher hookCtx).flatMap (·.hooks)

/-! ## MCP tool-provider lifecycle orchestrator

Embedding of `src/internal/llm/agent/mcp-tools.go`.  The global registries
(`mcpStates`, `mcpClients`, `mcpClient2Tools`, `mcpTools`) become an
explicit state record `MCPSys`; a `*client.Client` connection handle is
an opaque `Nat`; the broker's published events are accumulated in a list.
The external effects — creating/starting/initialising a client, pinging
it, and enumerating its tools — are scripted by outcome values
(`MCPOutcome`, `MCPEnumOutcome`, `RenewOutcome`), which is exactly the
information the orchestrator branches on.
-/

/-- `MCPState` (mcp-tools.go lines 26–34). -/
inductive MCPState
  | disabled
  | starting
  | connected
  | error
deriving DecidableEq, Repr

/-- One MCP-provided tool; only its registry name (`McpTool.Name()`)
matters to the orchestrator's bookkeeping. -/
structure MCPTool where
  name : String
deriving DecidableEq, Repr

/-- `MCPClientInfo` (mcp-tools.go lines 68–76).  `connectedAt` is the
timestamp stamped on transition to `connected` (0 = Go's zero time). -/
structure MCPClientInfo where
  name : String
  state : MCPState
  error : Option String
  client : Option Nat
  toolCount : Nat
  connectedAt : Nat
deriving DecidableEq, Repr

/-- `MCPEventStateChanged`. -/
def MCPEventStateChanged : String := "state_changed"

/-- `MCPEventToolsListChanged`. -/
def MCPEventToolsListChanged : String := "tools_list_changed"

/-- `MCPEvent` (mcp-tools.go lines 59–66). -/
structure MCPEvent where
  type : String
  name : String
  state : MCPState
  error : Option String
  toolCount : Nat
deriving DecidableEq, Repr

/-- The orchestrator's global registries (mcp-tools.go lines 78–86) plus
the broker's event log. -/
structure MCPSys where
  mcpStates : List (String × MCPClientInfo)
  mcpClients : List (String × Nat)
  mcpClient2Tools : List (String × List MCPTool)
  mcpTools : List (String × MCPTool)
  events : List MCPEvent
deriving DecidableEq, Repr

/-- The initial (empty) registries. -/
def MCPSys.init : MCPSys :=
  { mcpStates := [], mcpClients := [], mcpClient2Tools := [],
    mcpTools := [], events := [] }

/-- `updateMcpTools` (mcp-tools.go lines 350–361): delete or replace the
provider's per-client tool list, then re-publish every remaining
provider's tools into the flat `mcpTools` map. -/
def updateMcpTools (s : MCPSys) (mcpName : String) (tools : List MCPTool) : MCPSys :=
  let c2t :=
    if tools.length = 0 then delA s.mcpClient2Tools mcpName
    else setA s.mcpClient2Tools mcpName tools
  let flat := c2t.foldl (fun acc kv => kv.2.foldl (fun a t => setA a t.name t) acc) s.mcpTools
  { s with mcpClient2Tools := c2t, mcpTools := flat }

/-- `updateMCPState` (mcp-tools.go lines 240–265): builds the new info
record; on transition into `error` it clears the provider's published
tools (`updateMcpTools name nil`) and deletes its connection handle in
the same call; on `connected` it stamps the connect time; finally it
stores the record and publishes a state-change event. -/
def updateMCPState (s : MCPSys) (now : Nat) (name : String) (state : MCPState)
    (err : Option String) (client : Option Nat) (toolCount : Nat) : MCPSys :=
  let info : MCPClientInfo :=
    { name := name, state := state, error := err, client := client,
      toolCount := toolCount,
      connectedAt := if state = MCPState.connected then now else 0 }
  let s :=
    match state with
    | MCPState.error =>
        let s := updateMcpTools s name []
        { s with mcpClients := delA s.mcpClients name }
    | _ => s
  { s with
    mcpStates := setA s.mcpStates name info,
    events := s.events ++
      [{ type := MCPEventStateChanged, name := name, state := state,
         error := err, toolCount := toolCount }] }

/-- A recovered Go panic value, as discriminated by the `recover` switch
in `doGetMCPTools` (lines 315–323): an `error`, a `string`, or anything
else (carried as its formatted text). -/
inductive GoPanicValue
  | errorValue (e : String)
  | stringValue (sv : String)
  | otherValue (v : String)
deriving DecidableEq, Repr

/-- The panic-to-error conversion of the `recover` switch. -/
def recoverToError : GoPanicValue → String
  | .errorValue e => e
  | .stringValue sv => "panic: " ++ sv
  | .otherValue v => "panic: " ++ v

/-- Outcome of the initial `ListTools` enumeration in `getTools`. -/
inductive MCPEnumOutcome
  | fail (err : String)
  | ok (tools : List MCPTool)
deriving DecidableEq, Repr

/-- Scripted outcome of one provider's startup:  disabled in config;
`createMcpClient`/`Start`/`Initialize` failing (all three failure points
perform the same `error` transition); a panic during initialization; or a
successful connect+handshake with client handle `client` followed by the
tool enumeration. -/
inductive MCPOutcome
  | disabled
  | initFail (err : String)
  | panics (v : GoPanicValue)
  | success (client : Nat) (enum : MCPEnumOutcome)
deriving DecidableEq, Repr

/-- One configured provider (a key of `cfg.MCP`) with its scripted
startup outcome. -/
structure MCPProviderSpec where
  name : String
  outcome : MCPOutcome
deriving DecidableEq, Repr

/-- The body of one provider's startup goroutine in `doGetMCPTools`
(mcp-tools.go lines 300–343), threading the accumulated `result` slice:
set `starting`; on failure or panic transition to `error`; on success
store the client handle, enumerate tools (`getTools` transitions to
`error` itself when `ListTools` fails and returns nil), append the tools
to the result, publish them, and transition to `connected`. -/
def initProvider (now : Nat) (acc : MCPSys × List MCPTool) (p : MCPProviderSpec) :
    MCPSys × List MCPTool :=
  let s := acc.1
  let result := acc.2
  match p.outcome with
  | .disabled => (updateMCPState s now p.name .disabled none none 0, result)
  | .initFail err =>
      let s := updateMCPState s now p.name .starting none none 0
      (updateMCPState s now p.name .error (some err) none 0, result)
  | .panics v =>
      let s := updateMCPState s now p.name .starting none none 0
      (updateMCPState s now p.name .error (some (recoverToError v)) none 0, result)
  | .success c enum =>
      let s := updateMCPState s now p.name .starting none none 0
      let s := { s with mcpClients := setA s.mcpClients p.name c }
      match enum with
      | .fail err =>
          let s := updateMCPState s now p.name .error (some err) none 0
          let s := updateMcpTools s p.name []
          (updateMCPState s now p.name .connected none (some c) 0, result)
      | .ok tools =>
          let s := updateMcpTools s p.name tools
          (updateMCPState s now p.name .connected none (some c) tools.length,
            result ++ tools)

/-- `doGetMCPTools` (mcp-tools.go lines 293–347): every configured
provider is initialized (the goroutines only touch their own provider's
registry entries, so the concurrent startup is modelled as processing the
providers in an arbitrary order, one list per order). -/
def doGetMCPTools (now : Nat) (specs : List MCPProviderSpec) (s : MCPSys) :
    MCPSys × List MCPTool :=
  specs.foldl (initProvider now) (s, [])

/-- Scripted outcome of `getOrRenewClient`'s health probe and inline
reconnect attempt. -/
inductive RenewOutcome
  | pingOk
  | reconnectOk (client : Nat)
  | reconnectFail (err : String)
deriving DecidableEq, Repr

/-- `getOrRenewClient` (mcp-tools.go lines 147–172): no registered client
is an error; a successful ping returns the client; on ping failure the
provider transitions to `error` (keeping its previous tool count) and one
inline reconnect is attempted — success transitions back to `connected`
and re-registers the handle, failure records a second `error`. -/
def getOrRenewClient (s : MCPSys) (now : Nat) (name : String)
    (outcome : RenewOutcome) (pingErr : String) : MCPSys × Option Nat :=
  match lookupA s.mcpClients name with
  | none => (s, none)
  | some c =>
    match outcome with
    | .pingOk => (s, some c)
    | .reconnectOk c' =>
        let tc := ((lookupA s.mcpStates name).map (·.toolCount)).getD 0
        let s := updateMCPState s now name .error (some pingErr) none tc
        let s := updateMCPState s now name .connected none (some c') tc
        ({ s with mcpClients := setA s.mcpClients name c' }, some c')
    | .reconnectFail err2 =>
        let tc := ((lookupA s.mcpStates name).map (·.toolCount)).getD 0
        let s := updateMCPState s now name .error (some pingErr) none tc
        let s := updateMCPState s now name .error (some err2) none 0
        (s, none)

/-- The operations that mutate the orchestrator's registries: the
concurrent startup (in any provider order) and the lazy
reconnect-on-use. -/
inductive MCPStep : MCPSys → MCPSys → Prop
  | startup (s : MCPSys) (now : Nat) (specs : List MCPProviderSpec) :
      MCPStep s (doGetMCPTools now specs s).1
  | renew (s : MCPSys) (now : Nat) (name : String) (outcome : RenewOutcome)
      (pingErr : String) :
      MCPStep s (getOrRenewClient s now name outcome pingErr).1

/-- An orchestrator state reachable from the empty registries. -/
def MCPReachable (s : MCPSys) : Prop :=
  Relation.ReflTransGen MCPStep MCPSys.init s

/-- The §3 invariant: a provider in `error` state holds no connection
handle (neither in its info record nor in the `mcpClients` registry) and
publishes no tools (no `mcpClient2Tools` entry, so a tool-list query for
it yields zero tools). -/
def ErrorStateClean (s : MCPSys) : Prop :=
  ∀ name info, lookupA s.mcpStates name = some info →
    info.state = MCPState.error →
    info.client = none ∧ lookupA s.mcpClients name = none ∧
    lookupA s.mcpClient2Tools name = none

/-- The info record a provider's startup leaves for it. -/
def providerFinalInfo (now : Nat) (p : MCPProviderSpec) : MCPClientInfo :=
  match p.outcome with
  | .disabled => ⟨p.name, .disabled, none, none, 0, 0⟩
  | .initFail e => ⟨p.name, .error, some e, none, 0, 0⟩
  | .panics v => ⟨p.name, .error, some (recoverToError v), none, 0, 0⟩
  | .success c (.fail _) => ⟨p.name, .connected, none, some c, 0, now⟩
  | .success c (.ok ts) => ⟨p.name, .connected, none, some c, ts.length, now⟩

/-- The `mcpClients` entry a provider's startup leaves for it, given the
entry it had before. -/
def providerFinalClient (p : MCPProviderSpec) (old : Option Nat) : Option Nat :=
  match p.outcome with
  | .disabled => old
  | .initFail _ => none
  | .panics _ => none
  | .success _ (.fail _) => none
  | .success c (.ok _) => some c

/-- The `mcpClient2Tools` entry a provider's startup leaves for it, given
the entry it had before. -/
def providerFinalTools (p : MCPProviderSpec) (old : Option (List MCPTool)) :
    Option (List MCPTool) :=
  match p.outcome with
  | .disabled => old
  | .initFail _ => none
  | .panics _ => none
  | .success _ (.fail _) => none
  | .success _ (.ok ts) => if ts.length = 0 then none else some ts

/-- The tools a provider's startup appends to the returned list. -/
def providerContribution (p : MCPProviderSpec) : List MCPTool :=
  match p.outcome with
  | .success _ (.ok ts) => ts
  | _ => []

/-! ## SHA-256 (Go `crypto/sha256`)

An executable SHA-256 over byte lists; 32-bit words are `Nat`s kept below
`2 ^ 32` with explicit masking.  Recursions that are not structural use
explicit fuel so that everything kernel-reduces. -/

/-- Truncate to a 32-bit word. -/
def w32 (n : Nat) : Nat := n % 4294967296

/-- 32-bit right rotation (argument below `2 ^ 32`). -/
def rotr32 (x n : Nat) : Nat := w32 ((x >>> n) ||| (x <<< (32 - n)))

/-- SHA-256 `σ0`. -/
def ssig0 (x : Nat) : Nat := (rotr32 x 7) ^^^ (rotr32 x 18) ^^^ (x >>> 3)

/-- SHA-256 `σ1`. -/
def ssig1 (x : Nat) : Nat := (rotr32 x 17) ^^^ (rotr32 x 19) ^^^ (x >>> 10)

/-- SHA-256 `Σ0`. -/
def bsig0 (x : Nat) : Nat := (rotr32 x 2) ^^^ (rotr32 x 13) ^^^ (rotr32 x 22)

/-- SHA-256 `Σ1`. -/
def bsig1 (x : Nat) : Nat := (rotr32 x 6) ^^^ (rotr32 x 11) ^^^ (rotr32 x 25)

/-- SHA-256 `Ch`. -/
def chF (x y z : Nat) : Nat := (x &&& y) ^^^ ((x ^^^ 4294967295) &&& z)

/-- SHA-256 `Maj`. -/
def majF (x y z : Nat) : Nat := (x &&& y) ^^^ (x &&& z) ^^^ (y &&& z)

/-- The 64 SHA-256 round constants (decimal). -/
def sha256K : List Nat :=
  [1116352408, 1899447441, 3049323471, 3921009573, 961987163,
   1508970993, 2453635748, 2870763221, 3624381080, 310598401,
   607225278, 1426881987, 1925078388, 2162078206, 2614888103,
   3248222580, 3835390401, 4022224774, 264347078, 604807628,
   770255983, 1249150122, 1555081692, 1996064986, 2554220882,
   2821834349, 2952996808, 3210313671, 3336571891, 3584528711,
   113926993, 338241895, 666307205, 773529912, 1294757372,
   1396182291, 1695183700, 1986661051, 2177026350, 2456956037,
   2730485921, 2820302411, 3259730800, 3345764771, 3516065817,
   3600352804, 4094571909, 275423344, 430227734, 506948616,
   659060556, 883997877, 958139571, 1322822218, 1537002063,
   1747873779, 1955562222, 2024104815, 2227730452, 2361852424,
   2428436474, 2756734187, 3204031479, 3329325298]

/-- The initial SHA-256 hash state (decimal). -/
def sha256InitH : List Nat :=
  [1779033703, 3144134277, 1013904242, 2773480762,
   1359893119, 2600822924, 528734635, 1541459225]

/-- Big-endian 4-byte groups to 32-bit words. -/
def bytesToWords : List Nat → List Nat
  | b0 :: b1 :: b2 :: b3 :: rest =>
      ((b0 <<< 24) ||| (b1 <<< 16) ||| (b2 <<< 8) ||| b3) :: bytesToWords rest
  | _ => []

/-- Extend 16 message words to the 64-entry schedule. -/
def sha256Schedule (w16 : List Nat) : List Nat :=
  (List.range 48).foldl
    (fun w _ =>
      let n := w.length
      let a := w.getD (n - 16) 0
      let b := w.getD (n - 15) 0
      let c := w.getD (n - 7) 0
      let d := w.getD (n - 2) 0
      w ++ [w32 (ssig1 d + c + ssig0 b + a)])
    w16

/-- Compress one 64-byte block into the hash state. -/
def sha256Compress (h : List Nat) (block : List Nat) : List Nat :=
  let w := sha256Schedule (bytesToWords block)
  let final :=
    (sha256K.zip w).foldl
      (fun st kw =>
        match st with
        | [a, b, c, d, e, f, g, hh] =>
            let t1 := w32 (hh + bsig1 e + chF e f g + kw.1 + kw.2)
            let t2 := w32 (bsig0 a + majF a b c)
            [w32 (t1 + t2), a, b, c, w32 (d + t1), e, f, g]
        | st => st)
      h
  List.zipWith (fun x y => w32 (x + y)) h final

/-- SHA-256 message padding: `0x80`, zeros to 56 mod 64, then the bit
length as 8 big-endian bytes. -/
def sha256pad (msg : List Nat) : List Nat :=
  let len := msg.length
  let zeros := (119 - len % 64) % 64
  let bitLen := len * 8
  msg ++ [0x80] ++ List.replicate zeros 0 ++
    [(bitLen >>> 56) &&& 255, (bitLen >>> 48) &&& 255, (bitLen >>> 40) &&& 255,
     (bitLen >>> 32) &&& 255, (bitLen >>> 24) &&& 255, (bitLen >>> 16) &&& 255,
     (bitLen >>> 8) &&& 255, bitLen &&& 255]

/-- Split into 64-byte blocks (fuel-driven so it kernel-reduces). -/
def chunks64 : Nat → List Nat → List (List Nat)
  | 0, _ => []
  | fuel + 1, l => if l.isEmpty then [] else l.take 64 :: chunks64 fuel (l.drop 64)

/-- The SHA-256 digest (32 bytes) of a byte list. -/
def sha256Bytes (msg : List Nat) : List Nat :=
  let padded := sha256pad msg
  let blocks := chunks64 (padded.length + 1) padded
  let hh := blocks.foldl sha256Compress sha256InitH
  hh.flatMap fun wrd =>
    [(wrd >>> 24) &&& 255, (wrd >>> 16) &&& 255, (wrd >>> 8) &&& 255, wrd &&& 255]

/-- Lowercase hex digit. -/
def hexDigit (n : Nat) : Char :=
  if n < 10 then Char.ofNat (48 + n) else Char.ofNat (87 + n)

/-- `hex.EncodeToString`. -/
def hexEncode (bytes : List Nat) : String :=
  ⟨bytes.flatMap fun b => [hexDigit (b / 16), hexDigit (b % 16)]⟩

/-- UTF-8 encoding of one character (Go `[]byte(string)`). -/
def utf8Bytes (c : Char) : List Nat :=
  let n := c.toNat
  if n < 0x80 then [n]
  else if n < 0x800 then
    [0xC0 ||| (n >>> 6), 0x80 ||| (n &&& 0x3F)]
  else if n < 0x10000 then
    [0xE0 ||| (n >>> 12), 0x80 ||| ((n >>> 6) &&& 0x3F), 0x80 ||| (n &&& 0x3F)]
  else
    [0xF0 ||| (n >>> 18), 0x80 ||| ((n >>> 12) &&& 0x3F),
     0x80 ||| ((n >>> 6) &&& 0x3F), 0x80 ||| (n &&& 0x3F)]

/-- The bytes of a string. -/
def stringBytes (s : String) : List Nat := s.data.flatMap utf8Bytes

/-- `hex.EncodeToString(sha256.Sum(...))` of a string. -/
def hexSha256 (s : String) : String := hexEncode (sha256Bytes (stringBytes s))

/-! ## `filepath.Clean` (POSIX)

A port of Go's `path/filepath.Clean` for the POSIX build: separator `/`,
empty volume name, `FromSlash` the identity.  The lazybuf write index `w`
becomes the length of the output character list; the main loop carries
fuel (one unit per consumed input character) so it kernel-reduces. -/

/-- `os.IsPathSeparator` on POSIX. -/
def isPathSeparator (c : Char) : Bool := c = '/'

/-- The `..`-backtracking scan: starting from write index `w`, walk left
while above `dotdot` and not on a separator (the inner `for` of the
`..` case). -/
def backtrackW (out : List Char) (dotdot : Nat) : Nat → Nat
  | 0 => 0
  | w + 1 =>
      if w + 1 > dotdot && !(isPathSeparator (out.getD (w + 1) ' ')) then
        backtrackW out dotdot w
      else w + 1

/-- The main loop of `Clean`: `path` is the unread input, `out` the
written output, `dotdot` the backtrack limit. -/
def cleanLoop : Nat → List Char → Bool → List Char → Nat → List Char
  | 0, _, _, out, _ => out
  | fuel + 1, path, rooted, out, dotdot =>
    match path with
    | [] => out
    | c :: rest =>
      if isPathSeparator c then
        cleanLoop fuel rest rooted out dotdot
      else if c = '.' && (rest.isEmpty || isPathSeparator (rest.headD 'x')) then
        cleanLoop fuel rest rooted out dotdot
      else if c = '.' && rest.headD 'x' = '.' &&
          (rest.tail.isEmpty || isPathSeparator (rest.tail.headD 'x')) then
        if out.length > dotdot then
          cleanLoop fuel rest.tail rooted
            (out.take (backtrackW out dotdot (out.length - 1))) dotdot
        else if !rooted then
          let out := if out.length > 0 then out ++ ['/'] else out
          let out := out ++ ['.', '.']
          cleanLoop fuel rest.tail rooted out out.length
        else
          cleanLoop fuel rest.tail rooted out dotdot
      else
        let out :=
          if (rooted && out.length != 1) || (!rooted && out.length != 0) then
            out ++ ['/']
          else out
        cleanLoop fuel (rest.dropWhile fun ch => !isPathSeparator ch) rooted
          (out ++ c :: rest.takeWhile fun ch => !isPathSeparator ch) dotdot

/-- Go `path/filepath.Clean` on POSIX. -/
def filepathClean (path : String) : String :=
  if path = "" then "."
  else
    let chars := path.data
    let rooted := isPathSeparator (chars.headD ' ')
    let out :=
      if rooted then cleanLoop (chars.length + 1) chars rooted ['/'] 1
      else cleanLoop (chars.length + 1) chars rooted [] 0
    if out.length = 0 then "." else ⟨out⟩

/-! ## Instance registry (control-plane server)

Embedding of `controllerV1.handlePostInstances`
(src/internal/server/proto.go lines 384–455). -/

/-- The fields of `config.Config` the instance handlers read.
Modelled from the spec: `config.Init(path, dataDir, debug)` is outside
the provided sources; per the spec's data model the instance's config
carries the debug flag, the data-directory override and the
permission-bypass flag, with `Permissions.SkipRequests` then overwritten
from the request's `YOLO` field. -/
structure InstanceConfig where
  debug : Bool
  dataDirectory : String
  skipRequests : Bool
deriving DecidableEq, Repr

/-- `server.InstanceState`. -/
inductive InstanceState
  | created
  | started
  | stopped
deriving DecidableEq, Repr

/-- `proto.Instance`, the request/response body of `POST /v1/instances`. -/
structure ProtoInstance where
  id : String
  path : String
  yolo : Bool
  debug : Bool
  dataDir : String
deriving DecidableEq, Repr

/-- `server.Instance` (the HTTP variant in src/internal/server/proto.go,
lines 726–733): the registered per-workspace record. -/
structure ServerInstance where
  State : InstanceState
  id : String
  path : String
  cfg : InstanceConfig
deriving DecidableEq, Repr

/-- `controllerV1.handlePostInstances`: the instance id is the hex
SHA-256 of the `filepath.Clean`-ed request path; an existing instance is
returned unchanged (its stored config supplying `YOLO`/`Debug`/`DataDir`)
and nothing is registered; otherwise the config is initialized from the
request (the external `config.Init`, `.crush` directory creation, DB
connection and `app.New` are assumed to succeed — the claim concerns the
registry logic), the instance is registered under the id, and the new
descriptor is returned with `Debug`/`DataDir` left zero-valued exactly as
the source's response literal does. -/
def handlePostInstances (instances : List (String × ServerInstance))
    (args : ProtoInstance) :
    List (String × ServerInstance) × ProtoInstance :=
  let id := hexSha256 (filepathClean args.path)
  match lookupA instances id with
  | some existing =>
      (instances,
        { id := existing.id, path := existing.path,
          yolo := existing.cfg.skipRequests,
          debug := existing.cfg.debug,
          dataDir := existing.cfg.dataDirectory })
  | none =>
      let cfg : InstanceConfig :=
        { debug := args.debug, dataDirectory := args.dataDir,
          skipRequests := args.yolo }
      let ins : ServerInstance :=
        { State := .created, id := id, path := args.path, cfg := cfg }
      (setA instances id ins,
        { id := id, path := args.path, yolo := cfg.skipRequests,
          debug := false, dataDir := "" })

/-! ## Client event-stream decoding

Embedding of `Client.SubscribeEvents` (the payload-discriminating variant
in src/internal/client/proto.go, lines 434–550) over
`pubsub.Event[T] = {type, payload}` (src/internal/pubsub/events.go).
JSON decoding is external (`encoding/json`), so each decode stage is an
oracle in `JsonCodec`; a frame is one line read from the response body,
and the input stream is the list of successfully read lines (EOF at the
end of the list).

Modelled from the spec: the `pubsub.Payload` envelope type and the
`PayloadType*` discriminator constants are not among the provided
sources; per the spec the payload's `type` is one of a fixed set — LSP,
tool-provider (MCP), permission-request, permission-notification,
message, session, file, agent — represented here by distinct strings. -/

/-- `pubsub.PayloadTypeLSPEvent` (modelled from the spec). -/
def PayloadTypeLSPEvent : String := "lsp_event"

/-- `pubsub.PayloadTypeMCPEvent` (modelled from the spec). -/
def PayloadTypeMCPEvent : String := "mcp_event"

/-- `pubsub.PayloadTypePermissionRequest` (modelled from the spec). -/
def PayloadTypePermissionRequest : String := "permission_request"

/-- `pubsub.PayloadTypePermissionNotification` (modelled from the spec). -/
def PayloadTypePermissionNotification : String := "permission_notification"

/-- `pubsub.PayloadTypeMessage` (modelled from the spec). -/
def PayloadTypeMessage : String := "message"

/-- `pubsub.PayloadTypeSession` (modelled from the spec). -/
def PayloadTypeSession : String := "session"

/-- `pubsub.PayloadTypeFile` (modelled from the spec). -/
def PayloadTypeFile : String := "file"

/-- `pubsub.PayloadTypeAgentEvent` (modelled from the spec). -/
def PayloadTypeAgentEvent : String := "agent_event"

/-- The fixed set of known payload discriminators. -/
def knownPayloadTypes : List String :=
  [PayloadTypeLSPEvent, PayloadTypeMCPEvent, PayloadTypePermissionRequest,
   PayloadTypePermissionNotification, PayloadTypeMessage, PayloadTypeSession,
   PayloadTypeFile, PayloadTypeAgentEvent]

/-- Result of one `json.Unmarshal` call. -/
inductive DecodeResult (α : Type)
  | ok (val : α)
  | err (msg : String)
deriving DecidableEq, Repr

/-- The discriminator part of `pubsub.Payload` (modelled from the spec). -/
structure PayloadMeta where
  ptype : String
deriving DecidableEq, Repr

/-- The typed events the client delivers on its channel, one constructor
per `pubsub.Event[proto.X]` arm of the switch; the typed re-unmarshal's
error is ignored by the source (`_ = json.Unmarshal`), so the delivered
value is a function of the frame data, carried here verbatim. -/
inductive ClientEvent
  | lspEvent (data : String)
  | mcpEvent (data : String)
  | permissionRequest (data : String)
  | permissionNotification (data : String)
  | message (data : String)
  | session (data : String)
  | file (data : String)
  | agentEvent (data : String)
deriving DecidableEq, Repr

/-- The discriminator attached to a delivered event. -/
def ClientEvent.tag : ClientEvent → String
  | .lspEvent _ => PayloadTypeLSPEvent
  | .mcpEvent _ => PayloadTypeMCPEvent
  | .permissionRequest _ => PayloadTypePermissionRequest
  | .permissionNotification _ => PayloadTypePermissionNotification
  | .message _ => PayloadTypeMessage
  | .session _ => PayloadTypeSession
  | .file _ => PayloadTypeFile
  | .agentEvent _ => PayloadTypeAgentEvent

/-- The external JSON decoding stages: the envelope decode into
`pubsub.Event[any]`, the raw-payload extraction via the
`json.RawMessage` alias struct, and the `pubsub.Payload` decode that
yields the discriminator. -/
structure JsonCodec where
  decodeEnvelope : String → DecodeResult Unit
  decodeRawPayload : String → DecodeResult String
  decodePayloadMeta : String → DecodeResult PayloadMeta

/-- What the read loop does with one frame. -/
inductive FrameAction
  | deliver (e : ClientEvent)
  | drop
deriving DecidableEq, Repr

/-- `bytes.CutPrefix(line, []byte("data:"))`. -/
def cutDataHeader (line : String) : Option String :=
  if ("data:").data.isPrefixOf line.data then
    some ⟨line.data.drop 5⟩
  else none

/-- Processing of one line of the event stream (the body of the read
loop, src/internal/client/proto.go lines 461–545): trim; skip blank
lines; require and strip the `data:` header; first decode the envelope,
then extract the raw payload, then decode only the payload's `type`
discriminator; dispatch on the discriminator, delivering the typed event
for the eight known types and logging-and-dropping anything else. -/
def processLine (codec : JsonCodec) (line : String) : FrameAction :=
  let line := trimSpace line
  if line.data.isEmpty then .drop
  else
    match cutDataHeader line with
    | none => .drop
    | some rest =>
      let data := trimSpace rest
      match codec.decodeEnvelope data with
      | .err _ => .drop
      | .ok _ =>
        match codec.decodeRawPayload data with
        | .err _ => .drop
        | .ok payloadRaw =>
          match codec.decodePayloadMeta payloadRaw with
          | .err _ => .drop
          | .ok p =>
            if p.ptype = PayloadTypeLSPEvent then .deliver (.lspEvent data)
            else if p.ptype = PayloadTypeMCPEvent then .deliver (.mcpEvent data)
            else if p.ptype = PayloadTypePermissionRequest then
              .deliver (.permissionRequest data)
            else if p.ptype = PayloadTypePermissionNotification then
              .deliver (.permissionNotification data)
            else if p.ptype = PayloadTypeMessage then .deliver (.message data)
            else if p.ptype = PayloadTypeSession then .deliver (.session data)
            else if p.ptype = PayloadTypeFile then .deliver (.file data)
            else if p.ptype = PayloadTypeAgentEvent then .deliver (.agentEvent data)
            else .drop

/-- The payload discriminator a line carries, when its decode chain
reaches the dispatch switch. -/
def frameType (codec : JsonCodec) (line : String) : Option String :=
  let line := trimSpace line
  if line.data.isEmpty then none
  else
    match cutDataHeader line with
    | none => none
    | some rest =>
      let data := trimSpace rest
      match codec.decodeEnvelope data with
      | .err _ => none
      | .ok _ =>
        match codec.decodeRawPayload data with
        | .err _ => none
        | .ok payloadRaw =>
          match codec.decodePayloadMeta payloadRaw with
          | .err _ => none
          | .ok p => some p.ptype

/-- The whole read loop: every line is processed, delivered events are
collected in order, and the loop never aborts on a frame (EOF, the end of
the list, is the only exit). -/
def processStream (codec : JsonCodec) : List String → List ClientEvent
  | [] => []
  | l :: ls =>
    match processLine codec l with
    | .deliver e => e :: processStream codec ls
    | .drop => processStream codec ls

end Crush

namespace Crush

/-! ## Theorems: background shell manager -/

theorem shellInv_empty : ShellInv BackgroundShellManager.emptyManager := by
  refine ⟨?_, ?_, ?_⟩
  · intro id h
    simp [BackgroundShellManager.emptyManager] at h
  · simp [BackgroundShellManager.emptyManager]
  · intro id bs h
    simp [BackgroundShellManager.emptyManager] at h

theorem start_heap (m : BackgroundShellManager) (id workingDir k : String) :
    (m.Start id workingDir).heap k =
      if k = id then
        some { id := id, stdout := "", stderr := "", done := false,
               exitErr := none, workingDir := workingDir }
      else m.heap k := rfl

theorem start_shells (m : BackgroundShellManager) (id workingDir : String) :
    (m.Start id workingDir).shells = id :: m.shells := rfl

theorem runnerFinish_heap (m : BackgroundShellManager)
    (id out errOut : String) (exitErr : Option String) (k : String) :
    (m.runnerFinish id out errOut exitErr).heap k =
      if k = id then
        (m.heap k).map fun bs =>
          { bs with stdout := bs.stdout ++ out, stderr := bs.stderr ++ errOut,
                    exitErr := exitErr, done := true }
      else m.heap k := rfl

theorem runnerFinish_shells (m : BackgroundShellManager)
    (id out errOut : String) (exitErr : Option String) :
    (m.runnerFinish id out errOut exitErr).shells = m.shells := rfl

theorem shellInv_step {m m' : BackgroundShellManager}
    (hstep : ShellStep m m') (hinv : ShellInv m) : ShellInv m' := by
  obtain ⟨hreg, hnodup, hempty⟩ := hinv
  cases hstep with
  | start id workingDir hfresh =>
      refine ⟨?_, ?_, ?_⟩
      · intro i hi
        rw [start_shells] at hi
        rw [start_heap]
        rcases List.mem_cons.mp hi with hi | hi
        · exact ⟨_, by rw [if_pos hi]⟩
        · obtain ⟨bs, hbs⟩ := hreg i hi
          by_cases h : i = id
          · subst h; rw [hfresh] at hbs; cases hbs
          · exact ⟨bs, by rw [if_neg h]; exact hbs⟩
      · rw [start_shells, List.nodup_cons]
        refine ⟨?_, hnodup⟩
        intro hmem
        obtain ⟨bs, hbs⟩ := hreg id hmem
        rw [hfresh] at hbs; cases hbs
      · intro i bs hbs hdone
        rw [start_heap] at hbs
        by_cases h : i = id
        · rw [if_pos h, Option.some.injEq] at hbs
          subst hbs; exact ⟨rfl, rfl, rfl⟩
        · rw [if_neg h] at hbs
          exact hempty i bs hbs hdone
  | finish id out errOut exitErr bs hbs hrun =>
      refine ⟨?_, hnodup, ?_⟩
      · intro i hi
        rw [runnerFinish_shells] at hi
        rw [runnerFinish_heap]
        obtain ⟨bs', hbs'⟩ := hreg i hi
        by_cases h : i = id
        · exact ⟨_, by rw [if_pos h, hbs', Option.map_some']⟩
        · exact ⟨bs', by rw [if_neg h]; exact hbs'⟩
      · intro i bs' hbs' hdone
        rw [runnerFinish_heap] at hbs'
        by_cases h : i = id
        · subst h
          rw [if_pos rfl, hbs, Option.map_some', Option.some.injEq] at hbs'
          rw [← hbs'] at hdone
          simp at hdone
        · rw [if_neg h] at hbs'
          exact hempty i bs' hbs' hdone
  | kill id finalOut finalErrOut finalExitErr =>
      by_cases hmem : id ∈ m.shells
      · obtain ⟨bs, hbs⟩ := hreg id hmem
        have herase : ∀ i, i ∈ m.shells.erase id → i ∈ m.shells :=
          fun i hi => List.mem_of_mem_erase hi
        simp only [BackgroundShellManager.Kill, if_pos hmem]
        have hbs' : ({ m with shells := m.shells.erase id } :
            BackgroundShellManager).heap id = some bs := hbs
        rw [hbs']
        dsimp only
        by_cases hdone : bs.done
        · rw [if_pos hdone]
          exact ⟨fun i hi => hreg i (herase i hi), hnodup.erase id, hempty⟩
        · rw [if_neg hdone]
          refine ⟨?_, ?_, ?_⟩
          · intro i hi
            rw [runnerFinish_shells] at hi
            obtain ⟨bs', hbs''⟩ := hreg i (herase i hi)
            rw [runnerFinish_heap]
            by_cases h : i = id
            · exact ⟨_, by rw [if_pos h]; show (m.heap i).map _ = _
                           rw [h, hbs, Option.map_some']⟩
            · exact ⟨bs', by rw [if_neg h]; exact hbs''⟩
          · rw [runnerFinish_shells]
            exact hnodup.erase id
          · intro i bs' hbs'' hdone'
            rw [runnerFinish_heap] at hbs''
            by_cases h : i = id
            · rw [if_pos h] at hbs''
              have heq : ({ m with shells := m.shells.erase id } :
                  BackgroundShellManager).heap i = some bs := by rw [h]; exact hbs
              rw [heq, Option.map_some', Option.some.injEq] at hbs''
              rw [← hbs''] at hdone'
              simp at hdone'
            · rw [if_neg h] at hbs''
              exact hempty i bs' hbs'' hdone'
      · simp only [BackgroundShellManager.Kill, if_neg hmem]
        exact ⟨hreg, hnodup, hempty⟩

theorem shellInv_reachable {m : BackgroundShellManager}
    (h : ShellReachable m) : ShellInv m := by
  induction h with
  | refl => exact shellInv_empty
  | tail _ hstep ih => exact shellInv_step hstep ih

/-- **C2.** `Kill(id)` on an unregistered id returns an error and changes
nothing (not a no-op that succeeds); on a registered id it returns no
error, blocks until the runner has recorded final output, and removes the
task — so afterwards `List()` no longer contains `id` and the task's
`done` flag is true. -/
theorem kill_correct (m : BackgroundShellManager) (hreach : ShellReachable m)
    (id finalOut finalErrOut : String) (finalExitErr : Option String) :
    (id ∉ m.shells →
      m.Kill id finalOut finalErrOut finalExitErr =
        (m, some ("background shell not found: " ++ id))) ∧
    (id ∈ m.shells →
      (m.Kill id finalOut finalErrOut finalExitErr).2 = none ∧
      id ∉ (m.Kill id finalOut finalErrOut finalExitErr).1.listIDs ∧
      ∃ bs, (m.Kill id finalOut finalErrOut finalExitErr).1.heap id = some bs ∧
        bs.done = true) := by
  obtain ⟨hreg, hnodup, _⟩ := shellInv_reachable hreach
  constructor
  · intro hnmem
    simp only [BackgroundShellManager.Kill, if_neg hnmem]
  · intro hmem
    obtain ⟨bs, hbs⟩ := hreg id hmem
    have hbs' : ({ m with shells := m.shells.erase id } :
        BackgroundShellManager).heap id = some bs := hbs
    simp only [BackgroundShellManager.Kill, if_pos hmem, hbs]
    by_cases hdone : bs.done
    · rw [if_pos hdone]
      exact ⟨trivial, hnodup.not_mem_erase, bs, hbs, hdone⟩
    · rw [if_neg hdone]
      refine ⟨trivial, ?_, ?_⟩
      · show id ∉ m.shells.erase id
        exact hnodup.not_mem_erase
      · refine ⟨{ bs with stdout := bs.stdout ++ finalOut, stderr := bs.stderr ++ finalErrOut, exitErr := finalExitErr, done := true }, ?_, rfl⟩
        rw [runnerFinish_heap, if_pos rfl]
        show (m.heap id).map _ = _
        rw [hbs, Option.map_some']

/-- One step of the manager cannot change an already-completed shell
object: once `done` is set, the record is immutable. -/
theorem done_shell_frozen {m m' : BackgroundShellManager}
    (hstep : ShellStep m m') (id : String) (bs : BackgroundShell)
    (hbs : m.heap id = some bs) (hdone : bs.done = true) :
    m'.heap id = some bs := by
  cases hstep with
  | start id' workingDir hfresh =>
      rw [start_heap]
      by_cases h : id = id'
      · rw [h] at hbs; rw [hfresh] at hbs; cases hbs
      · rw [if_neg h]; exact hbs
  | finish id' out errOut exitErr bs' hbs' hrun =>
      rw [runnerFinish_heap]
      by_cases h : id = id'
      · subst h
        rw [hbs] at hbs'
        cases hbs'
        rw [hdone] at hrun; cases hrun
      · rw [if_neg h]; exact hbs
  | kill id' finalOut finalErrOut finalExitErr =>
      by_cases hmem : id' ∈ m.shells
      · simp only [BackgroundShellManager.Kill, if_pos hmem]
        have hheap : ({ m with shells := m.shells.erase id' } :
            BackgroundShellManager).heap = m.heap := rfl
        rw [hheap]
        cases hcase : m.heap id' with
        | none => exact hbs
        | some bs' =>
            dsimp only
            by_cases hdone' : bs'.done
            · rw [if_pos hdone']; exact hbs
            · rw [if_neg hdone', runnerFinish_heap]
              by_cases h : id = id'
              · subst h
                rw [hbs] at hcase
                cases hcase
                rw [hdone] at hdone'
                exact absurd rfl hdone'
              · rw [if_neg h]; exact hbs
      · simp only [BackgroundShellManager.Kill, if_neg hmem]
        exact hbs

/-- **C3.** Once a background task is marked complete its output is
immutable: no later sequence of operations changes the shell's record,
and `GetOutput` returns exactly the recorded stdout, stderr, `done = true`
and the recorded exit error — so repeated reads are byte-identical. -/
theorem output_immutable (m m' : BackgroundShellManager)
    (hsteps : Relation.ReflTransGen ShellStep m m')
    (id : String) (bs : BackgroundShell)
    (hbs : m.heap id = some bs) (hdone : bs.done = true) :
    m'.heap id = some bs ∧
    bs.GetOutput = (bs.stdout, bs.stderr, true, bs.exitErr) := by
  constructor
  · induction hsteps with
    | refl => exact hbs
    | tail _ hstep ih => exact done_shell_frozen hstep id bs ih hdone
  · rw [BackgroundShell.GetOutput, if_pos hdone]

/-- **C10.** While a background task has not completed, `GetOutput`
returns empty stdout, empty stderr, `done = false` and a nil error: the
runner writes captured output only once, after the command finishes, so
partial output is never observable. -/
theorem getOutput_before_done (m : BackgroundShellManager)
    (hreach : ShellReachable m) (id : String) (bs : BackgroundShell)
    (hbs : m.heap id = some bs) (hrun : bs.done = false) :
    bs.GetOutput = ("", "", false, none) := by
  obtain ⟨-, -, hempty⟩ := shellInv_reachable hreach
  obtain ⟨h1, h2, _⟩ := hempty id bs hbs hrun
  rw [BackgroundShell.GetOutput, if_neg (by rw [hrun]; exact Bool.false_ne_true), h1, h2]

theorem kill_correct_witness :
    ("job-1" ∈ (BackgroundShellManager.emptyManager.Start "job-1" "/work").shells) ∧
    ((BackgroundShellManager.emptyManager.Start "job-1" "/work").Kill
        "job-1" "out" "" none).2 = none ∧
    "job-1" ∉ ((BackgroundShellManager.emptyManager.Start "job-1" "/work").Kill
        "job-1" "out" "" none).1.listIDs ∧
    ∃ bs, ((BackgroundShellManager.emptyManager.Start "job-1" "/work").Kill
        "job-1" "out" "" none).1.heap "job-1" = some bs ∧ bs.done = true := by
  have hreach : ShellReachable (BackgroundShellManager.emptyManager.Start "job-1" "/work") :=
    Relation.ReflTransGen.single (ShellStep.start _ "job-1" "/work" rfl)
  have h := kill_correct _ hreach "job-1" "out" "" none
  exact ⟨by decide, h.2 (by decide)⟩

theorem output_immutable_witness :
    (((BackgroundShellManager.emptyManager.Start "job-1" "/work").runnerFinish
          "job-1" "hi" "oops" (some "exit status 1")).Kill "job-1" "" "" none).1.heap
        "job-1" =
      some { id := "job-1", stdout := "hi", stderr := "oops", done := true,
             exitErr := some "exit status 1", workingDir := "/work" } ∧
    BackgroundShell.GetOutput
        { id := "job-1", stdout := "hi", stderr := "oops", done := true,
          exitErr := some "exit status 1", workingDir := "/work" } =
      ("hi", "oops", true, some "exit status 1") := by
  have hbs : ((BackgroundShellManager.emptyManager.Start "job-1" "/work").runnerFinish
      "job-1" "hi" "oops" (some "exit status 1")).heap "job-1" =
      some { id := "job-1", stdout := "hi", stderr := "oops", done := true,
             exitErr := some "exit status 1", workingDir := "/work" } := by decide
  exact output_immutable _ _
    (Relation.ReflTransGen.single (ShellStep.kill _ "job-1" "" "" none))
    "job-1" _ hbs rfl

theorem getOutput_before_done_witness :
    BackgroundShell.GetOutput
        { id := "job-1", stdout := "", stderr := "", done := false,
          exitErr := none, workingDir := "/work" } = ("", "", false, none) := by
  have hreach : ShellReachable (BackgroundShellManager.emptyManager.Start "job-1" "/work") :=
    Relation.ReflTransGen.single (ShellStep.start _ "job-1" "/work" rfl)
  exact getOutput_before_done _ hreach "job-1" _ (by decide) rfl

/-! ## Theorems: hook executor -/

theorem runHooks_all_ok (env : HookRunEnv) (hookCtx : HookContext)
    (l : List Hook)
    (hcmd : ∀ h ∈ l, h.type = "command")
    (hok : ∀ h ∈ l, env.run h hookCtx (effectiveTimeoutSeconds h) = none) :
    runHooks env hookCtx l = (none, l.map (·.command)) := by
  induction l with
  | nil => rfl
  | cons hook rest ih =>
      have h1 : hook.type = "command" := hcmd hook (List.mem_cons_self _ _)
      have h2 : env.run hook hookCtx (effectiveTimeoutSeconds hook) = none :=
        hok hook (List.mem_cons_self _ _)
      have hexe : executeHook env hook hookCtx = (none, [hook.command]) := by
        rw [executeHook, if_neg (by rw [h1]; simp), h2]
      rw [runHooks, hexe]
      rw [ih (fun h hh => hcmd h (List.mem_cons_of_mem _ hh))
            (fun h hh => hok h (List.mem_cons_of_mem _ hh))]
      rfl

theorem runHooks_first_fail (env : HookRunEnv) (hookCtx : HookContext)
    (pre : List Hook) (hook : Hook) (post : List Hook) (e : String)
    (hcmdPre : ∀ h ∈ pre, h.type = "command")
    (hokPre : ∀ h ∈ pre, env.run h hookCtx (effectiveTimeoutSeconds h) = none)
    (hcmd : hook.type = "command")
    (hfail : env.run hook hookCtx (effectiveTimeoutSeconds hook) = some e) :
    runHooks env hookCtx (pre ++ hook :: post) =
      (some ("hook command failed: " ++ e),
        pre.map (·.command) ++ [hook.command]) := by
  induction pre with
  | nil =>
      have hexe : executeHook env hook hookCtx =
          (some ("hook command failed: " ++ e), [hook.command]) := by
        rw [executeHook, if_neg (by rw [hcmd]; simp), hfail]
      rw [List.nil_append, runHooks, hexe]
      rfl
  | cons h rest ih =>
      have h1 : h.type = "command" := hcmdPre h (List.mem_cons_self _ _)
      have h2 : env.run h hookCtx (effectiveTimeoutSeconds h) = none :=
        hokPre h (List.mem_cons_self _ _)
      have hexe : executeHook env h hookCtx = (none, [h.command]) := by
        rw [executeHook, if_neg (by rw [h1]; simp), h2]
      rw [List.cons_append, runHooks, hexe]
      rw [ih (fun x hx => hcmdPre x (List.mem_cons_of_mem _ hx))
            (fun x hx => hokPre x (List.mem_cons_of_mem _ hx))]
      rfl

theorem runHooks_append (env : HookRunEnv) (hookCtx : HookContext)
    (l1 l2 : List Hook) :
    runHooks env hookCtx (l1 ++ l2) =
      if (runHooks env hookCtx l1).1.isSome then runHooks env hookCtx l1
      else ((runHooks env hookCtx l2).1,
            (runHooks env hookCtx l1).2 ++ (runHooks env hookCtx l2).2) := by
  induction l1 with
  | nil =>
      rw [List.nil_append]
      show runHooks env hookCtx l2 = if Option.isSome none then _ else _
      rw [Option.isSome_none, if_neg (by simp)]
      rfl
  | cons hook rest ih =>
      rcases hexe : executeHook env hook hookCtx with ⟨o, ran⟩
      cases o with
      | some e =>
          have hl : runHooks env hookCtx (hook :: rest) = (some e, ran) := by
            rw [runHooks, hexe]
          have hl2 : runHooks env hookCtx (hook :: (rest ++ l2)) = (some e, ran) := by
            rw [runHooks, hexe]
          rw [List.cons_append, hl2, hl]
          simp
      | none =>
          have hl : runHooks env hookCtx (hook :: rest) =
              ((runHooks env hookCtx rest).1, ran ++ (runHooks env hookCtx rest).2) := by
            rw [runHooks, hexe]
          have hl2 : runHooks env hookCtx (hook :: (rest ++ l2)) =
              ((runHooks env hookCtx (rest ++ l2)).1,
                ran ++ (runHooks env hookCtx (rest ++ l2)).2) := by
            rw [runHooks, hexe]
          rw [List.cons_append, hl2, hl, ih]
          rcases hrest : runHooks env hookCtx rest with ⟨o', ran'⟩
          cases o' with
          | some e' => simp
          | none => simp [List.append_assoc]

theorem runMatchers_eq (env : HookRunEnv) (hookCtx : HookContext)
    (ms : List HookMatcher) :
    runMatchers env none hookCtx ms =
      runHooks env hookCtx
        ((ms.filter fun m => matcherApplies m hookCtx).flatMap (·.hooks)) := by
  induction ms with
  | nil => rfl
  | cons m rest ih =>
      by_cases happ : matcherApplies m hookCtx
      · rw [List.filter_cons, if_pos happ, List.flatMap_cons, runHooks_append]
        rw [runMatchers]
        dsimp only
        rw [if_pos happ]
        rcases hmh : runHooks env hookCtx m.hooks with ⟨o, ran⟩
        cases o with
        | some e => simp
        | none => simp [ih]
      · rw [List.filter_cons, if_neg happ, runMatchers]
        dsimp only
        rw [if_neg happ, ih]

theorem Execute_eq (env : HookRunEnv) (config : HookConfig)
    (workingDir : String) (hookCtx : HookContext) :
    Execute env config workingDir none hookCtx =
      runHooks env { hookCtx with workingDir := workingDir }
        (applyingHooks config { hookCtx with workingDir := workingDir }) := by
  rw [Execute, applyingHooks]
  cases hl : lookupA config ({ hookCtx with workingDir := workingDir } : HookContext).eventType with
  | none => rfl
  | some matchers =>
      dsimp only
      by_cases hlen : matchers.length = 0
      · rw [if_pos hlen]
        rw [List.length_eq_zero.mp hlen]
        rfl
      · rw [if_neg hlen, runMatchers_eq]

/-- **C4.** Hook execution is fail-fast: with an uncancelled context and
well-typed (`"command"`) hooks, if every applying hook succeeds `Execute`
returns nil and every hook's command ran in order; and whenever the
applying sequence splits as `pre ++ hook :: post` with all of `pre`
succeeding and `hook` failing (non-zero exit or timeout), `Execute`
returns that hook's error and runs exactly `pre`'s commands plus the
failing one — nothing under the same or any later matcher after it. -/
theorem hook_fail_fast (env : HookRunEnv) (config : HookConfig)
    (workingDir : String) (hookCtx : HookContext)
    (hcmd : ∀ hook ∈ applyingHooks config { hookCtx with workingDir := workingDir },
      hook.type = "command") :
    ((∀ hook ∈ applyingHooks config { hookCtx with workingDir := workingDir },
        env.run hook { hookCtx with workingDir := workingDir }
          (effectiveTimeoutSeconds hook) = none) →
      Execute env config workingDir none hookCtx =
        (none, (applyingHooks config
          { hookCtx with workingDir := workingDir }).map (·.command))) ∧
    (∀ (pre : List Hook) (hook : Hook) (post : List Hook) (e : String),
      applyingHooks config { hookCtx with workingDir := workingDir } =
        pre ++ hook :: post →
      (∀ h ∈ pre, env.run h { hookCtx with workingDir := workingDir }
        (effectiveTimeoutSeconds h) = none) →
      env.run hook { hookCtx with workingDir := workingDir }
        (effectiveTimeoutSeconds hook) = some e →
      Execute env config workingDir none hookCtx =
        (some ("hook command failed: " ++ e),
          pre.map (·.command) ++ [hook.command])) := by
  constructor
  · intro hok
    rw [Execute_eq]
    exact runHooks_all_ok env _ _ hcmd hok
  · intro pre hook post e hsplit hokPre hfail
    rw [Execute_eq, hsplit]
    refine runHooks_first_fail env _ pre hook post e ?_ hokPre ?_ hfail
    · intro h hh
      exact hcmd h (by rw [hsplit]; exact List.mem_append_left _ hh)
    · exact hcmd hook
        (by rw [hsplit]; exact List.mem_append_right _ (List.mem_cons_self _ _))

theorem hook_fail_fast_witness :
    Execute
        ⟨fun hook _ _ => if hook.command = "exit 1" then some "exit status 1" else none⟩
        [(PreToolUse, [⟨"*", [⟨"command", "exit 1", none⟩, ⟨"command", "echo hi", none⟩]⟩])]
        "/work" none
        { eventType := PreToolUse, sessionID := "", toolName := "edit",
          toolResult := "", toolError := false, userPrompt := "",
          workingDir := "", messageID := "", provider := "", model := "" } =
      (some ("hook command failed: " ++ "exit status 1"), ["exit 1"]) := by
  have h := (hook_fail_fast
      ⟨fun hook _ _ => if hook.command = "exit 1" then some "exit status 1" else none⟩
      [(PreToolUse, [⟨"*", [⟨"command", "exit 1", none⟩, ⟨"command", "echo hi", none⟩]⟩])]
      "/work"
      { eventType := PreToolUse, sessionID := "", toolName := "edit",
        toolResult := "", toolError := false, userPrompt := "",
        workingDir := "", messageID := "", provider := "", model := "" }
      (by decide)).2
      [] ⟨"command", "exit 1", none⟩ [⟨"command", "echo hi", none⟩] "exit status 1"
      (by decide) (by intro x hx; cases hx) (by decide)
  exact h

/-- **C5 (counterexample).** The claimed matcher characterisation fails:
for the pre-tool-use pattern `" edit "` (whitespace but no pipe) and tool
name `edit`, the specification's predicate (split on `|`, trim each
alternative) says the matcher applies, but the code's `matcherApplies`
rejects it, because `matchesToolName` only enters the trimming branch
when the pattern contains a pipe. -/
theorem matcher_spec_counterexample :
    specMatcherApplies " edit " PreToolUse "edit" = true ∧
    matcherApplies ⟨" edit ", []⟩
        { eventType := PreToolUse, sessionID := "", toolName := "edit",
          toolResult := "", toolError := false, userPrompt := "",
          workingDir := "", messageID := "", provider := "", model := "" } = false := by
  exact ⟨by decide, by decide⟩

/-- **C5 (amended).** The matcher rule the code implements: empty or `*`
applies to every event; for pre/post-tool-use events the matcher applies
iff the pattern equals the tool name exactly, or the pattern contains at
least one `|` and some pipe-separated alternative equals the tool name
after trimming surrounding whitespace (case-sensitively); for non-tool
events only empty or `*` matchers apply. -/
theorem matcherApplies_amended (matcher : HookMatcher) (ctx : HookContext) :
    matcherApplies matcher ctx =
      matcherAppliesAmended matcher.matcher ctx.eventType ctx.toolName := by
  rw [matcherApplies, matcherAppliesAmended, matchesToolName]
  by_cases h1 : matcher.matcher = "" || matcher.matcher = "*"
  · simp only [h1]
    norm_num [h1]
  · by_cases h2 : ctx.eventType = PreToolUse ∨ ctx.eventType = PostToolUse
    · by_cases h3 : matcher.matcher = ctx.toolName
      · simp [h1, h2, h3]
      · by_cases h4 : containsPipe matcher.matcher
        · simp [h1, h2, h3, h4]
        · simp [h1, h2, h3, h4]
    · simp [h1, h2]

/-- **C6 (code bug).** `executeHook` applies no 300-second cap: a hook
configured with `timeout = 600` runs under a 600-second timeout, although
the `Hook.Timeout` jsonschema (`maximum=300`) and HOOKS.md ("max: 300")
state 300 seconds as the maximum; the 30-second default does hold. -/
theorem timeout_not_capped :
    effectiveTimeoutSeconds { type := "command", command := "sleep 600", timeout := some 600 } = 600 ∧
    ¬(effectiveTimeoutSeconds { type := "command", command := "sleep 600", timeout := some 600 } ≤ 300) ∧
    effectiveTimeoutSeconds { type := "command", command := "sleep 600", timeout := none } = 30 := by
  exact ⟨rfl, by decide, rfl⟩

/-! ## Theorems: association-list maps -/

theorem lookupA_setA {α : Type} (l : List (String × α)) (k q : String) (v : α) :
    lookupA (setA l k v) q = if k = q then some v else lookupA l q := by
  induction l with
  | nil =>
      by_cases h : k = q <;> simp [setA, lookupA, h]
  | cons kv rest ih =>
      rcases kv with ⟨k₀, v₀⟩
      by_cases h0 : k₀ = k
      · subst h0
        by_cases h : k₀ = q <;> simp [setA, lookupA, h]
      · by_cases h1 : k₀ = q
        · subst h1
          have hk : ¬(k = k₀) := fun hh => h0 hh.symm
          simp [setA, lookupA, h0, hk]
        · simp [setA, lookupA, h0, h1, ih]

theorem lookupA_delA {α : Type} (l : List (String × α)) (k q : String) :
    lookupA (delA l k) q = if k = q then none else lookupA l q := by
  induction l with
  | nil =>
      by_cases h : k = q <;> simp [delA, lookupA, h]
  | cons kv rest ih =>
      rcases kv with ⟨k₀, v₀⟩
      by_cases h0 : k₀ = k
      · subst h0
        by_cases h : k₀ = q
        · subst h
          simp [delA, lookupA, ih]
        · simp [delA, lookupA, h, ih]
      · by_cases h1 : k₀ = q
        · subst h1
          have hk : ¬(k = k₀) := fun hh => h0 hh.symm
          simp [delA, lookupA, h0, hk]
        · simp [delA, lookupA, h0, h1, ih]

/-! ## Theorems: MCP orchestrator -/

theorem updateMCPState_states_proj (s : MCPSys) (now : Nat) (name : String)
    (st : MCPState) (err : Option String) (client : Option Nat) (tc : Nat) :
    (updateMCPState s now name st err client tc).mcpStates =
      setA s.mcpStates name
        ⟨name, st, err, client, tc, if st = MCPState.connected then now else 0⟩ := by
  cases st <;> rfl

theorem updateMCPState_clients_proj (s : MCPSys) (now : Nat) (name : String)
    (st : MCPState) (err : Option String) (client : Option Nat) (tc : Nat) :
    (updateMCPState s now name st err client tc).mcpClients =
      if st = MCPState.error then delA s.mcpClients name else s.mcpClients := by
  cases st <;> rfl

theorem updateMCPState_c2t_proj (s : MCPSys) (now : Nat) (name : String)
    (st : MCPState) (err : Option String) (client : Option Nat) (tc : Nat) :
    (updateMCPState s now name st err client tc).mcpClient2Tools =
      if st = MCPState.error then delA s.mcpClient2Tools name
      else s.mcpClient2Tools := by
  cases st <;> rfl

theorem updateMcpTools_c2t_proj (s : MCPSys) (mcpName : String)
    (tools : List MCPTool) :
    (updateMcpTools s mcpName tools).mcpClient2Tools =
      if tools.length = 0 then delA s.mcpClient2Tools mcpName
      else setA s.mcpClient2Tools mcpName tools := rfl

theorem updateMcpTools_clients_proj (s : MCPSys) (mcpName : String)
    (tools : List MCPTool) :
    (updateMcpTools s mcpName tools).mcpClients = s.mcpClients := rfl

theorem updateMcpTools_states_proj (s : MCPSys) (mcpName : String)
    (tools : List MCPTool) :
    (updateMcpTools s mcpName tools).mcpStates = s.mcpStates := rfl

/-- Pointwise effect of one provider's startup on the three registries:
it writes only its own keys, with values determined by its scripted
outcome (and, where the code does not touch an entry, the old value). -/
theorem initProvider_lookups (now : Nat) (s : MCPSys) (r : List MCPTool)
    (q : MCPProviderSpec) (k : String) :
    lookupA (initProvider now (s, r) q).1.mcpStates k =
      (if q.name = k then some (providerFinalInfo now q)
       else lookupA s.mcpStates k) ∧
    lookupA (initProvider now (s, r) q).1.mcpClients k =
      (if q.name = k then providerFinalClient q (lookupA s.mcpClients k)
       else lookupA s.mcpClients k) ∧
    lookupA (initProvider now (s, r) q).1.mcpClient2Tools k =
      (if q.name = k then providerFinalTools q (lookupA s.mcpClient2Tools k)
       else lookupA s.mcpClient2Tools k) := by
  rcases q with ⟨name, outcome⟩
  cases outcome with
  | disabled =>
      by_cases h : name = k <;>
        simp [initProvider, updateMCPState_states_proj, updateMCPState_clients_proj,
          updateMCPState_c2t_proj, lookupA_setA, h, providerFinalInfo,
          providerFinalClient, providerFinalTools]
  | initFail err =>
      by_cases h : name = k <;>
        simp [initProvider, updateMCPState_states_proj, updateMCPState_clients_proj,
          updateMCPState_c2t_proj, updateMcpTools_states_proj,
          updateMcpTools_clients_proj, updateMcpTools_c2t_proj,
          lookupA_setA, lookupA_delA, h, providerFinalInfo,
          providerFinalClient, providerFinalTools]
  | panics v =>
      by_cases h : name = k <;>
        simp [initProvider, updateMCPState_states_proj, updateMCPState_clients_proj,
          updateMCPState_c2t_proj, updateMcpTools_states_proj,
          updateMcpTools_clients_proj, updateMcpTools_c2t_proj,
          lookupA_setA, lookupA_delA, h, providerFinalInfo,
          providerFinalClient, providerFinalTools]
  | success c enum =>
      cases enum with
      | fail err =>
          by_cases h : name = k <;>
            simp [initProvider, updateMCPState_states_proj, updateMCPState_clients_proj,
              updateMCPState_c2t_proj, updateMcpTools_states_proj,
              updateMcpTools_clients_proj, updateMcpTools_c2t_proj,
              lookupA_setA, lookupA_delA, h, providerFinalInfo,
              providerFinalClient, providerFinalTools]
      | ok ts =>
          by_cases h : name = k <;> by_cases hts : ts.length = 0 <;>
            simp [initProvider, updateMCPState_states_proj, updateMCPState_clients_proj,
              updateMCPState_c2t_proj, updateMcpTools_states_proj,
              updateMcpTools_clients_proj, updateMcpTools_c2t_proj,
              lookupA_setA, lookupA_delA, h, hts, providerFinalInfo,
              providerFinalClient, providerFinalTools]

theorem initProvider_snd (now : Nat) (s : MCPSys) (r : List MCPTool)
    (q : MCPProviderSpec) :
    (initProvider now (s, r) q).2 = r ++ providerContribution q := by
  rcases q with ⟨name, outcome⟩
  cases outcome with
  | disabled => simp [initProvider, providerContribution]
  | initFail err => simp [initProvider, providerContribution]
  | panics v => simp [initProvider, providerContribution]
  | success c enum =>
      cases enum with
      | fail err => simp [initProvider, providerContribution]
      | ok ts => simp [initProvider, providerContribution]

theorem foldl_lookups_avoid (now : Nat) (l : List MCPProviderSpec) (k : String)
    (hl : ∀ q ∈ l, q.name ≠ k) :
    ∀ (s : MCPSys) (r : List MCPTool),
      lookupA (l.foldl (initProvider now) (s, r)).1.mcpStates k =
        lookupA s.mcpStates k ∧
      lookupA (l.foldl (initProvider now) (s, r)).1.mcpClients k =
        lookupA s.mcpClients k ∧
      lookupA (l.foldl (initProvider now) (s, r)).1.mcpClient2Tools k =
        lookupA s.mcpClient2Tools k := by
  induction l with
  | nil => intro s r; exact ⟨rfl, rfl, rfl⟩
  | cons q rest ih =>
      intro s r
      rw [List.foldl_cons]
      rcases hq : initProvider now (s, r) q with ⟨s', r'⟩
      have g := initProvider_lookups now s r q k
      rw [hq] at g
      obtain ⟨gS, gC, gT⟩ := g
      have hqname : q.name ≠ k := hl q (List.mem_cons_self _ _)
      rw [if_neg hqname] at gS gC gT
      have ihr := ih (fun x hx => hl x (List.mem_cons_of_mem _ hx)) s' r'
      rw [gS, gC, gT] at ihr
      exact ihr

theorem foldl_agree (now : Nat) (l : List MCPProviderSpec) (k₀ : String)
    (hl : ∀ q ∈ l, q.name ≠ k₀) :
    ∀ (s₁ s₂ : MCPSys) (r₁ r₂ : List MCPTool),
      (∀ k, k ≠ k₀ →
        lookupA s₁.mcpStates k = lookupA s₂.mcpStates k ∧
        lookupA s₁.mcpClients k = lookupA s₂.mcpClients k ∧
        lookupA s₁.mcpClient2Tools k = lookupA s₂.mcpClient2Tools k) →
      ∀ k, k ≠ k₀ →
        lookupA (l.foldl (initProvider now) (s₁, r₁)).1.mcpStates k =
          lookupA (l.foldl (initProvider now) (s₂, r₂)).1.mcpStates k ∧
        lookupA (l.foldl (initProvider now) (s₁, r₁)).1.mcpClients k =
          lookupA (l.foldl (initProvider now) (s₂, r₂)).1.mcpClients k ∧
        lookupA (l.foldl (initProvider now) (s₁, r₁)).1.mcpClient2Tools k =
          lookupA (l.foldl (initProvider now) (s₂, r₂)).1.mcpClient2Tools k := by
  induction l with
  | nil => intro s₁ s₂ r₁ r₂ hagree k hk; exact hagree k hk
  | cons q rest ih =>
      intro s₁ s₂ r₁ r₂ hagree k hk
      rw [List.foldl_cons, List.foldl_cons]
      rcases h1 : initProvider now (s₁, r₁) q with ⟨s₁', r₁'⟩
      rcases h2 : initProvider now (s₂, r₂) q with ⟨s₂', r₂'⟩
      refine ih (fun x hx => hl x (List.mem_cons_of_mem _ hx)) s₁' s₂' r₁' r₂' ?_ k hk
      intro k' hk'
      have g1 := initProvider_lookups now s₁ r₁ q k'
      have g2 := initProvider_lookups now s₂ r₂ q k'
      rw [h1] at g1
      rw [h2] at g2
      obtain ⟨g1S, g1C, g1T⟩ := g1
      obtain ⟨g2S, g2C, g2T⟩ := g2
      obtain ⟨hS, hC, hT⟩ := hagree k' hk'
      by_cases hqk : q.name = k'
      · rw [g1S, g2S, g1C, g2C, g1T, g2T, if_pos hqk, if_pos hqk, if_pos hqk,
          if_pos hqk, if_pos hqk, if_pos hqk, hC, hT]
        exact ⟨rfl, rfl, rfl⟩
      · rw [g1S, g2S, g1C, g2C, g1T, g2T, if_neg hqk, if_neg hqk, if_neg hqk,
          if_neg hqk, if_neg hqk, if_neg hqk]
        exact ⟨hS, hC, hT⟩

theorem foldl_result (now : Nat) (l : List MCPProviderSpec) :
    ∀ (s : MCPSys) (r : List MCPTool),
      (l.foldl (initProvider now) (s, r)).2 = r ++ l.flatMap providerContribution := by
  induction l with
  | nil => intro s r; simp
  | cons q rest ih =>
      intro s r
      rw [List.foldl_cons]
      rcases hq : initProvider now (s, r) q with ⟨s', r'⟩
      have hsnd := initProvider_snd now s r q
      rw [hq] at hsnd
      have hsnd' : r' = r ++ providerContribution q := hsnd
      rw [ih s' r', hsnd', List.flatMap_cons, List.append_assoc]

theorem initProvider_clean {s : MCPSys} (hclean : ErrorStateClean s)
    (now : Nat) (r : List MCPTool) (q : MCPProviderSpec) :
    ErrorStateClean (initProvider now (s, r) q).1 := by
  intro name info hlook herr
  obtain ⟨gS, gC, gT⟩ := initProvider_lookups now s r q name
  by_cases h : q.name = name
  · rw [gS, if_pos h] at hlook
    injection hlook with hinfo
    subst hinfo
    rw [gC, if_pos h, gT, if_pos h]
    rcases q with ⟨qn, outcome⟩
    cases outcome with
    | disabled => simp [providerFinalInfo] at herr
    | initFail e => exact ⟨rfl, rfl, rfl⟩
    | panics v => exact ⟨rfl, rfl, rfl⟩
    | success c enum => cases enum <;> simp [providerFinalInfo] at herr
  · rw [gS, if_neg h] at hlook
    rw [gC, if_neg h, gT, if_neg h]
    exact hclean name info hlook herr

theorem doGetMCPTools_clean {s : MCPSys} (hclean : ErrorStateClean s)
    (now : Nat) (specs : List MCPProviderSpec) :
    ErrorStateClean (doGetMCPTools now specs s).1 := by
  have key : ∀ (l : List MCPProviderSpec) (s₀ : MCPSys) (r : List MCPTool),
      ErrorStateClean s₀ →
      ErrorStateClean ((l.foldl (initProvider now) (s₀, r)).1) := by
    intro l
    induction l with
    | nil => intro s₀ r h; exact h
    | cons q rest ih =>
        intro s₀ r h
        rw [List.foldl_cons]
        rcases hq : initProvider now (s₀, r) q with ⟨s', r'⟩
        have h' := initProvider_clean h now r q
        rw [hq] at h'
        exact ih s' r' h'
  exact key specs s [] hclean

theorem getOrRenewClient_clean {s : MCPSys} (hclean : ErrorStateClean s)
    (now : Nat) (name : String) (outcome : RenewOutcome) (pingErr : String) :
    ErrorStateClean (getOrRenewClient s now name outcome pingErr).1 := by
  rw [getOrRenewClient]
  cases hcl : lookupA s.mcpClients name with
  | none => exact hclean
  | some c =>
      cases outcome with
      | pingOk => exact hclean
      | reconnectOk c' =>
          intro n info hlook herr
          by_cases hn : name = n
          · subst hn
            simp only [updateMCPState_states_proj, lookupA_setA, if_pos rfl] at hlook
            injection hlook with hinfo
            subst hinfo
            simp at herr
          · constructor
            · simp only [updateMCPState_states_proj, lookupA_setA, if_neg hn] at hlook
              exact (hclean n info hlook herr).1
            · simp only [updateMCPState_states_proj, lookupA_setA, if_neg hn] at hlook
              obtain ⟨-, hcl2, ht2⟩ := hclean n info hlook herr
              constructor
              · simp only [lookupA_setA, if_neg hn, updateMCPState_clients_proj]
                simp [lookupA_delA, hn, hcl2]
              · simp only [updateMCPState_c2t_proj]
                simp [lookupA_delA, hn, ht2]
      | reconnectFail err2 =>
          intro n info hlook herr
          by_cases hn : name = n
          · subst hn
            simp only [updateMCPState_states_proj, lookupA_setA, if_pos rfl] at hlook
            injection hlook with hinfo
            subst hinfo
            refine ⟨rfl, ?_, ?_⟩
            · simp only [updateMCPState_clients_proj]
              simp [lookupA_delA]
            · simp only [updateMCPState_c2t_proj]
              simp [lookupA_delA]
          · simp only [updateMCPState_states_proj, lookupA_setA, if_neg hn] at hlook
            obtain ⟨hi, hcl2, ht2⟩ := hclean n info hlook herr
            refine ⟨hi, ?_, ?_⟩
            · simp only [updateMCPState_clients_proj]
              simp [lookupA_delA, hn, hcl2]
            · simp only [updateMCPState_c2t_proj]
              simp [lookupA_delA, hn, ht2]

theorem errorStateClean_init : ErrorStateClean MCPSys.init := by
  intro name info hlook herr
  simp [MCPSys.init, lookupA] at hlook

theorem mcpStep_clean {s s' : MCPSys} (hstep : MCPStep s s')
    (h : ErrorStateClean s) : ErrorStateClean s' := by
  cases hstep with
  | startup now specs => exact doGetMCPTools_clean h now specs
  | renew now name outcome pingErr =>
      exact getOrRenewClient_clean h now name outcome pingErr

/-- **C7.** In every reachable orchestrator state, a provider whose
record is in `error` state retains no connection handle (neither in its
info record nor in the `mcpClients` registry) and publishes no tools (no
`mcpClient2Tools` entry, so a tool-list query for it yields zero tools):
every operation that transitions a record into `error` — failed startup,
failed handshake, failed health probe, failed tool enumeration, recovered
panic — clears both in the same `updateMCPState` call. -/
theorem mcp_error_state_clean {s : MCPSys} (hreach : MCPReachable s) :
    ErrorStateClean s := by
  induction hreach with
  | refl => exact errorStateClean_init
  | tail _ hstep ih => exact mcpStep_clean hstep ih

theorem mcp_error_state_clean_witness :
    ErrorStateClean
      (doGetMCPTools 0 [⟨"a", MCPOutcome.initFail "dial tcp: connection refused"⟩]
        MCPSys.init).1 :=
  mcp_error_state_clean (Relation.ReflTransGen.single (MCPStep.startup _ 0 _))

/-- **C8.** A provider whose initialization panics is recorded in `error`
state with the converted panic value as its error and no connection or
tools, and every other provider's record, connection handle, published
tool list and returned tools are identical to the run in which the
panicking provider is absent. -/
theorem mcp_panic_isolation (now : Nat) (pre post : List MCPProviderSpec)
    (name : String) (v : GoPanicValue)
    (_hpre : ∀ q ∈ pre, q.name ≠ name) (hpost : ∀ q ∈ post, q.name ≠ name) :
    lookupA (doGetMCPTools now (pre ++ ⟨name, MCPOutcome.panics v⟩ :: post)
        MCPSys.init).1.mcpStates name =
      some ⟨name, MCPState.error, some (recoverToError v), none, 0, 0⟩ ∧
    lookupA (doGetMCPTools now (pre ++ ⟨name, MCPOutcome.panics v⟩ :: post)
        MCPSys.init).1.mcpClients name = none ∧
    lookupA (doGetMCPTools now (pre ++ ⟨name, MCPOutcome.panics v⟩ :: post)
        MCPSys.init).1.mcpClient2Tools name = none ∧
    (∀ k, k ≠ name →
      lookupA (doGetMCPTools now (pre ++ ⟨name, MCPOutcome.panics v⟩ :: post)
          MCPSys.init).1.mcpStates k =
        lookupA (doGetMCPTools now (pre ++ post) MCPSys.init).1.mcpStates k ∧
      lookupA (doGetMCPTools now (pre ++ ⟨name, MCPOutcome.panics v⟩ :: post)
          MCPSys.init).1.mcpClients k =
        lookupA (doGetMCPTools now (pre ++ post) MCPSys.init).1.mcpClients k ∧
      lookupA (doGetMCPTools now (pre ++ ⟨name, MCPOutcome.panics v⟩ :: post)
          MCPSys.init).1.mcpClient2Tools k =
        lookupA (doGetMCPTools now (pre ++ post) MCPSys.init).1.mcpClient2Tools k) ∧
    (doGetMCPTools now (pre ++ ⟨name, MCPOutcome.panics v⟩ :: post) MCPSys.init).2 =
      (doGetMCPTools now (pre ++ post) MCPSys.init).2 := by
  rw [doGetMCPTools, doGetMCPTools, List.foldl_append, List.foldl_append,
    List.foldl_cons]
  rcases hA : List.foldl (initProvider now) (MCPSys.init, ([] : List MCPTool)) pre
    with ⟨sA, rA⟩
  rcases hB : initProvider now (sA, rA) ⟨name, MCPOutcome.panics v⟩ with ⟨sB, rB⟩
  have gB := initProvider_lookups now sA rA ⟨name, MCPOutcome.panics v⟩ name
  rw [hB] at gB
  obtain ⟨gBs, gBc, gBt⟩ := gB
  rw [if_pos rfl] at gBs gBc gBt
  obtain ⟨hav1, hav2, hav3⟩ := foldl_lookups_avoid now post name hpost sB rB
  refine ⟨?_, ?_, ?_, ?_, ?_⟩
  · rw [hav1, gBs]
    simp [providerFinalInfo]
  · rw [hav2, gBc]
    rfl
  · rw [hav3, gBt]
    rfl
  · intro k hk
    have hagree0 : ∀ k', k' ≠ name →
        lookupA sB.mcpStates k' = lookupA sA.mcpStates k' ∧
        lookupA sB.mcpClients k' = lookupA sA.mcpClients k' ∧
        lookupA sB.mcpClient2Tools k' = lookupA sA.mcpClient2Tools k' := by
      intro k' hk'
      have g := initProvider_lookups now sA rA ⟨name, MCPOutcome.panics v⟩ k'
      rw [hB] at g
      obtain ⟨g1, g2, g3⟩ := g
      rw [if_neg (fun hh => hk' hh.symm)] at g1 g2 g3
      exact ⟨g1, g2, g3⟩
    exact foldl_agree now post name hpost sB sA rB rA hagree0 k hk
  · rw [foldl_result now post sB rB, foldl_result now post sA rA]
    have hrB := initProvider_snd now sA rA ⟨name, MCPOutcome.panics v⟩
    rw [hB] at hrB
    have hrB' : rB = rA ++ providerContribution ⟨name, MCPOutcome.panics v⟩ := hrB
    rw [hrB']
    simp [providerContribution]

/-- **C1.** Instance creation is idempotent per canonicalized path: when
two requests' paths `filepath.Clean` to the same string, the second call
returns the same instance identifier as the first, registers nothing
(the registry is unchanged), and its response — the existing instance's
descriptor — is the same whatever `dataDir`/`debug`/`YOLO` the second
request carries (first call wins). -/
theorem create_instance_idempotent (instances : List (String × ServerInstance))
    (args1 args2 : ProtoInstance)
    (hclean : filepathClean args2.path = filepathClean args1.path) :
    (handlePostInstances (handlePostInstances instances args1).1 args2).1 =
      (handlePostInstances instances args1).1 ∧
    (handlePostInstances (handlePostInstances instances args1).1 args2).2.id =
      (handlePostInstances instances args1).2.id ∧
    (∀ args2' : ProtoInstance, args2'.path = args2.path →
      handlePostInstances (handlePostInstances instances args1).1 args2' =
        handlePostInstances (handlePostInstances instances args1).1 args2) := by
  obtain ⟨ins, hlook, hid⟩ : ∃ ins : ServerInstance,
      lookupA (handlePostInstances instances args1).1
        (hexSha256 (filepathClean args1.path)) = some ins ∧
      (handlePostInstances instances args1).2.id = ins.id := by
    rw [handlePostInstances]
    cases hl : lookupA instances (hexSha256 (filepathClean args1.path)) with
    | some ex =>
        refine ⟨ex, ?_, rfl⟩
        simpa using hl
    | none =>
        refine ⟨{ State := InstanceState.created,
                  id := hexSha256 (filepathClean args1.path), path := args1.path,
                  cfg := { debug := args1.debug, dataDirectory := args1.dataDir,
                           skipRequests := args1.yolo } }, ?_, rfl⟩
        show lookupA
            (setA instances (hexSha256 (filepathClean args1.path))
              { State := InstanceState.created,
                id := hexSha256 (filepathClean args1.path), path := args1.path,
                cfg := { debug := args1.debug, dataDirectory := args1.dataDir,
                         skipRequests := args1.yolo } })
            (hexSha256 (filepathClean args1.path)) = _
        rw [lookupA_setA, if_pos rfl]
  have hr2 : ∀ a : ProtoInstance, a.path = args2.path →
      handlePostInstances (handlePostInstances instances args1).1 a =
        ((handlePostInstances instances args1).1,
          { id := ins.id, path := ins.path, yolo := ins.cfg.skipRequests,
            debug := ins.cfg.debug, dataDir := ins.cfg.dataDirectory }) := by
    intro a hpath
    generalize hs1 : (handlePostInstances instances args1).1 = s1 at hlook ⊢
    simp only [handlePostInstances, hpath, hclean, hlook]
  refine ⟨?_, ?_, ?_⟩
  · rw [hr2 args2 rfl]
  · rw [hr2 args2 rfl]
    exact hid.symm
  · intro args2' hpath
    rw [hr2 args2' hpath, hr2 args2 rfl]

theorem create_instance_idempotent_witness :
    filepathClean "a//b" = filepathClean "a/b" ∧
    (handlePostInstances
        (handlePostInstances [] ⟨"", "a/b", true, true, "/data1"⟩).1
        ⟨"", "a//b", false, false, "/data2"⟩).1 =
      (handlePostInstances [] ⟨"", "a/b", true, true, "/data1"⟩).1 ∧
    (handlePostInstances
        (handlePostInstances [] ⟨"", "a/b", true, true, "/data1"⟩).1
        ⟨"", "a//b", false, false, "/data2"⟩).2.id =
      (handlePostInstances [] ⟨"", "a/b", true, true, "/data1"⟩).2.id := by
  have h := create_instance_idempotent [] ⟨"", "a/b", true, true, "/data1"⟩
    ⟨"", "a//b", false, false, "/data2"⟩ (by decide)
  exact ⟨by decide, h.1, h.2.1⟩

/-! ## Theorems: client event-stream decoding -/

theorem processLine_deliver_tag (codec : JsonCodec) (l : String)
    (e : ClientEvent) (h : processLine codec l = FrameAction.deliver e) :
    e.tag ∈ knownPayloadTypes := by
  rw [processLine] at h
  by_cases h1 : (trimSpace l).data.isEmpty
  · rw [if_pos h1] at h; cases h
  · rw [if_neg h1] at h
    cases hcut : cutDataHeader (trimSpace l) with
    | none => rw [hcut] at h; cases h
    | some rest =>
        rw [hcut] at h
        dsimp only at h
        cases henv : codec.decodeEnvelope (trimSpace rest) with
        | err m => rw [henv] at h; cases h
        | ok u =>
            rw [henv] at h
            dsimp only at h
            cases hraw : codec.decodeRawPayload (trimSpace rest) with
            | err m => rw [hraw] at h; cases h
            | ok payloadRaw =>
                rw [hraw] at h
                dsimp only at h
                cases hmeta : codec.decodePayloadMeta payloadRaw with
                | err m => rw [hmeta] at h; cases h
                | ok p =>
                    rw [hmeta] at h
                    dsimp only at h
                    repeat' split at h
                    all_goals first
                      | (injection h with he; subst he;
                         simp [ClientEvent.tag, knownPayloadTypes])
                      | (cases h)

/-- **C9.** In the client's two-pass decode (envelope first, then only
the payload's `type` discriminator, then the typed payload for that
discriminator), a frame whose discriminator is outside the fixed known
set is dropped — the read loop continues on the remaining lines exactly
as if the frame were absent, with no error — and every event the loop
ever delivers carries one of the known discriminators, so an unknown
type is never fatal and never delivered. -/
theorem unknown_event_type_dropped (codec : JsonCodec) (line : String)
    (lines : List String) (t : String)
    (htype : frameType codec line = some t)
    (hunknown : t ∉ knownPayloadTypes) :
    processLine codec line = FrameAction.drop ∧
    processStream codec (line :: lines) = processStream codec lines ∧
    (∀ ls : List String, ∀ e ∈ processStream codec ls,
      ClientEvent.tag e ∈ knownPayloadTypes) := by
  have hdrop : processLine codec line = FrameAction.drop := by
    rw [frameType] at htype
    rw [processLine]
    by_cases h1 : (trimSpace line).data.isEmpty
    · simp [h1] at htype
    · rw [if_neg h1] at htype ⊢
      cases hcut : cutDataHeader (trimSpace line) with
      | none => simp [hcut] at htype
      | some rest =>
          simp only [hcut] at htype
          dsimp only
          cases henv : codec.decodeEnvelope (trimSpace rest) with
          | err msg => simp [henv] at htype
          | ok u =>
              simp only [henv] at htype
              dsimp only
              cases hraw : codec.decodeRawPayload (trimSpace rest) with
              | err msg => simp [hraw] at htype
              | ok payloadRaw =>
                  simp only [hraw] at htype
                  dsimp only
                  cases hmeta : codec.decodePayloadMeta payloadRaw with
                  | err msg => simp [hmeta] at htype
                  | ok p =>
                      simp only [hmeta] at htype
                      dsimp only
                      injection htype with hpt
                      subst hpt
                      rw [if_neg (fun hh => hunknown (by rw [hh]; decide)),
                          if_neg (fun hh => hunknown (by rw [hh]; decide)),
                          if_neg (fun hh => hunknown (by rw [hh]; decide)),
                          if_neg (fun hh => hunknown (by rw [hh]; decide)),
                          if_neg (fun hh => hunknown (by rw [hh]; decide)),
                          if_neg (fun hh => hunknown (by rw [hh]; decide)),
                          if_neg (fun hh => hunknown (by rw [hh]; decide)),
                          if_neg (fun hh => hunknown (by rw [hh]; decide))]
  refine ⟨hdrop, ?_, ?_⟩
  · rw [processStream, hdrop]
  · intro ls
    induction ls with
    | nil => intro e he; cases he
    | cons l' ls' ih =>
        intro e he
        rw [processStream] at he
        cases hpl : processLine codec l' with
        | deliver e' =>
            rw [hpl] at he
            rcases List.mem_cons.mp he with he | he
            · subst he
              exact processLine_deliver_tag codec l' e hpl
            · exact ih e he
        | drop =>
            rw [hpl] at he
            exact ih e he

theorem unknown_event_type_dropped_witness :
    processLine
        ⟨fun _ => DecodeResult.ok (), fun s => DecodeResult.ok s,
          fun _ => DecodeResult.ok ⟨"bogus"⟩⟩ "data: x" = FrameAction.drop ∧
    processStream
        ⟨fun _ => DecodeResult.ok (), fun s => DecodeResult.ok s,
          fun _ => DecodeResult.ok ⟨"bogus"⟩⟩ ["data: x", "data: y"] =
      processStream
        ⟨fun _ => DecodeResult.ok (), fun s => DecodeResult.ok s,
          fun _ => DecodeResult.ok ⟨"bogus"⟩⟩ ["data: y"] ∧
    (∀ ls : List String, ∀ e ∈ processStream
        ⟨fun _ => DecodeResult.ok (), fun s => DecodeResult.ok s,
          fun _ => DecodeResult.ok ⟨"bogus"⟩⟩ ls,
      ClientEvent.tag e ∈ knownPayloadTypes) :=
  unknown_event_type_dropped
    ⟨fun _ => DecodeResult.ok (), fun s => DecodeResult.ok s,
      fun _ => DecodeResult.ok ⟨"bogus"⟩⟩ "data: x" ["data: y"] "bogus"
    (by decide) (by decide)

theorem mcp_panic_isolation_witness :
    lookupA (doGetMCPTools 7
        ([] ++ ⟨"a", MCPOutcome.panics (GoPanicValue.stringValue "boom")⟩ ::
          [⟨"b", MCPOutcome.success 1 (MCPEnumOutcome.ok [⟨"mcp_b_list"⟩])⟩])
        MCPSys.init).1.mcpStates "a" =
      some ⟨"a", MCPState.error, some (recoverToError (GoPanicValue.stringValue "boom")),
        none, 0, 0⟩ ∧
    lookupA (doGetMCPTools 7
        ([] ++ ⟨"a", MCPOutcome.panics (GoPanicValue.stringValue "boom")⟩ ::
          [⟨"b", MCPOutcome.success 1 (MCPEnumOutcome.ok [⟨"mcp_b_list"⟩])⟩])
        MCPSys.init).1.mcpClients "a" = none ∧
    lookupA (doGetMCPTools 7
        ([] ++ ⟨"a", MCPOutcome.panics (GoPanicValue.stringValue "boom")⟩ ::
          [⟨"b", MCPOutcome.success 1 (MCPEnumOutcome.ok [⟨"mcp_b_list"⟩])⟩])
        MCPSys.init).1.mcpClient2Tools "a" = none ∧
    (∀ k, k ≠ "a" →
      lookupA (doGetMCPTools 7
          ([] ++ ⟨"a", MCPOutcome.panics (GoPanicValue.stringValue "boom")⟩ ::
            [⟨"b", MCPOutcome.success 1 (MCPEnumOutcome.ok [⟨"mcp_b_list"⟩])⟩])
          MCPSys.init).1.mcpStates k =
        lookupA (doGetMCPTools 7
          ([] ++ [⟨"b", MCPOutcome.success 1 (MCPEnumOutcome.ok [⟨"mcp_b_list"⟩])⟩])
          MCPSys.init).1.mcpStates k ∧
      lookupA (doGetMCPTools 7
          ([] ++ ⟨"a", MCPOutcome.panics (GoPanicValue.stringValue "boom")⟩ ::
            [⟨"b", MCPOutcome.success 1 (MCPEnumOutcome.ok [⟨"mcp_b_list"⟩])⟩])
          MCPSys.init).1.mcpClients k =
        lookupA (doGetMCPTools 7
          ([] ++ [⟨"b", MCPOutcome.success 1 (MCPEnumOutcome.ok [⟨"mcp_b_list"⟩])⟩])
          MCPSys.init).1.mcpClients k ∧
      lookupA (doGetMCPTools 7
          ([] ++ ⟨"a", MCPOutcome.panics (GoPanicValue.stringValue "boom")⟩ ::
            [⟨"b", MCPOutcome.success 1 (MCPEnumOutcome.ok [⟨"mcp_b_list"⟩])⟩])
          MCPSys.init).1.mcpClient2Tools k =
        lookupA (doGetMCPTools 7
          ([] ++ [⟨"b", MCPOutcome.success 1 (MCPEnumOutcome.ok [⟨"mcp_b_list"⟩])⟩])
          MCPSys.init).1.mcpClient2Tools k) ∧
    (doGetMCPTools 7
        ([] ++ ⟨"a", MCPOutcome.panics (GoPanicValue.stringValue "boom")⟩ ::
          [⟨"b", MCPOutcome.success 1 (MCPEnumOutcome.ok [⟨"mcp_b_list"⟩])⟩])
        MCPSys.init).2 =
      (doGetMCPTools 7
        ([] ++ [⟨"b", MCPOutcome.success 1 (MCPEnumOutcome.ok [⟨"mcp_b_list"⟩])⟩])
        MCPSys.init).2 :=
  mcp_panic_isolation 7 [] [⟨"b", MCPOutcome.success 1 (MCPEnumOutcome.ok [⟨"mcp_b_list"⟩])⟩]
    "a" (GoPanicValue.stringValue "boom")
    (by intro q hq; cases hq) (by decide)

end Crush
